import Mathlib

/-!
Verification of the `vexy-illustrator-scripts` JSX-structure normalizer
(`src/.lib/normalize_jsx_structure.py`) and its companion script generator
(`generate_scripts.py`).

Texts are shallowly embedded as `List Char`.  Every regular expression used
by the Python source is deterministic on the texts it is applied to (each
`\s*` in the patterns is followed by a non-whitespace literal, each
non-greedy group is bounded by a literal stop), so each regex is embedded
as an explicit scanning function that mirrors Python's leftmost,
greedy/lazy backtracking semantics for that particular pattern.
Whitespace and word characters are modelled over their ASCII ranges,
matching Python's behaviour on the ASCII texts considered here.
-/

set_option maxRecDepth 20000

namespace NJX

abbrev Text := List Char

/-- ASCII model of Python's `\s` class (`string.whitespace`). -/
def isSpaceB (c : Char) : Bool :=
  c == ' ' || c == '\t' || c == '\n' || c == '\r' || c == '\x0b' || c == '\x0c'

/-- ASCII model of Python's `\w` class. -/
def isWordB (c : Char) : Bool :=
  c.isAlphanum || c == '_'

/-- Length of the maximal whitespace run at the front of `h` (a greedy `\s*`). -/
def wsLen (h : Text) : Nat := (h.takeWhile isSpaceB).length

/-- `re.M` line-start anchor `^` at offset `i`. -/
def boundaryAt (h : Text) (i : Nat) : Bool :=
  i == 0 || h[i-1]? == some '\n'

/-- Position just past a greedy `\s*` started at `p`. -/
def skipWsFrom (h : Text) (p : Nat) : Nat := p + wsLen (h.drop p)

def charAt (h : Text) (p : Nat) (c : Char) : Bool := h[p]? == some c

/-- Number of positions of `h` at which `n` occurs as a substring. -/
def countOcc (n : Text) : Text → Nat
  | [] => 0
  | c :: t => (if n.isPrefixOf (c :: t) then 1 else 0) + countOcc n t

/-- Scan of Python `str.replace(n, r)`; each step consumes at least one
character of the text, so `length + 1` steps of fuel suffice. -/
def replaceAllAux (n r : Text) : Nat → Text → Text
  | 0, h => h
  | _+1, [] => []
  | fuel+1, c :: t =>
    if n.isPrefixOf (c :: t) && decide (1 ≤ n.length) then
      r ++ replaceAllAux n r fuel (t.drop (n.length - 1))
    else
      c :: replaceAllAux n r fuel t

/-- Python `str.replace(n, r)`: replace all occurrences, scanning left to
right and resuming after each replacement. -/
def replaceAll (n r : Text) (h : Text) : Text := replaceAllAux n r (h.length + 1) h

/-- Python `str.rstrip()` (ASCII whitespace). -/
def rstrip (h : Text) : Text := (h.reverse.dropWhile isSpaceB).reverse

/-- Python `str.strip()` (ASCII whitespace). -/
def pstrip (h : Text) : Text := rstrip (h.dropWhile isSpaceB)

-- ---------------------------------------------------------------------------
-- Constants of `normalize_jsx_structure.py`
-- ---------------------------------------------------------------------------

/-- The target pragma line `//@target illustrator`. -/
def PRAGMA : Text := "//@target illustrator".toList

/-- `LOADER_STANDALONE` from the source. -/
def LOADER : Text :=
  ("var c=File(Folder.myDocuments+\"/Adobe Scripts/vexy-ville.ini\");" ++
   "if(c.exists)\x7bc.open('r');var p=c.read();c.close();var l=File(p+\".lib/core.jsx\");if(l.exists)$.evalFile(l.fsName);\x7d").toList

/-- The literal head of the preference statement pattern
`^app\.preferences\.setBooleanPreference\('ShowExternalJSXWarning',`. -/
def PREF_KEY : Text := "app.preferences.setBooleanPreference('ShowExternalJSXWarning',".toList

/-- The canonical preference line inserted by the normalizer. -/
def PREF_CANON : Text := "app.preferences.setBooleanPreference('ShowExternalJSXWarning', false);".toList

/-- The literal head `\(function\(\)` of the wrapper pattern. -/
def FN_OPEN : Text := "(function()".toList

/-- The literal tail `\}\)\(\);` of the wrapper pattern. -/
def IIFE_CLOSE : Text := "\x7d)();".toList

def DOC_MARK : Text := "AIS.Document.hasDocument()".toList

def SEL_MARK : Text := "AIS.Document.hasSelection()".toList

def VALIDATE_MARK : Text := "validateEnvironment".toList

def SCRIPTNAME_KEY : Text := "scriptName".toList

/-- The `// EXECUTE` banner line of the synthesized execute block. -/
def BANNER : Text := "// EXECUTE".toList

def BANNER_EQ : Text := "// ".toList ++ List.replicate 76 '='

-- ---------------------------------------------------------------------------
-- The line-anchored header regexes
-- ---------------------------------------------------------------------------

/-- `$` of `re.M`: end of string, or just before a newline. -/
def eolAt (h : Text) (p : Nat) : Bool := p == h.length || h[p]? == some '\n'

/-- Greedy `\s*$` starting at `q`: the largest whitespace consumption that
lands on a line end; returns the match end. -/
def eolSearch (h : Text) (q : Nat) : Option Nat :=
  let run := (h.drop q).takeWhile isSpaceB
  ((List.range (run.length + 1)).reverse.find? (fun t => eolAt h (q + t))).map (fun t => q + t)

/-- `\s*;?\s*$` starting at `p`, following Python's backtracking order
(greedy first `\s*`, then the one-repetition branch of `;?`). -/
def wsSemiWsEol (h : Text) (p : Nat) : Option Nat :=
  let run := (h.drop p).takeWhile isSpaceB
  (List.range (run.length + 1)).reverse.findSome? (fun s1 =>
    (if h[p+s1]? == some ';' then eolSearch h (p + s1 + 1) else none) <|> eolSearch h (p + s1))

/-- Tail `\s*$` of the pragma pattern: succeeds iff whitespace runs to the
end of the string or contains a newline. -/
def pragmaTailOk (r : Text) : Bool :=
  let run := r.takeWhile isSpaceB
  run.length == r.length || run.contains '\n'

/-- Match of `^//@target illustrator\s*$` (`re.M`) at offset `i`. -/
def pragmaAt (h : Text) (i : Nat) : Bool :=
  boundaryAt h i && PRAGMA.isPrefixOf (h.drop i) && pragmaTailOk (h.drop (i + PRAGMA.length))

/-- `re.search` for the pragma line: start of the leftmost match. -/
def findPragmaLine (h : Text) : Option Nat :=
  (List.range (h.length + 1)).find? (pragmaAt h)

/-- Tail `[^\n]*\)\s*;?\s*$` of the preference pattern, starting at `j`:
the rightmost `)` on the line that lets `\s*;?\s*$` succeed wins; returns
the match end. -/
def prefTail (h : Text) (j : Nat) : Option Nat :=
  let ln := (h.drop j).takeWhile (fun c => !(c == '\n'))
  (List.range ln.length).reverse.findSome? (fun k =>
    if ln[k]? == some ')' then wsSemiWsEol h (j + k + 1) else none)

/-- Match of the preference-statement pattern at offset `i`; returns the
match end. -/
def prefAt (h : Text) (i : Nat) : Option Nat :=
  if boundaryAt h i && PREF_KEY.isPrefixOf (h.drop i) then
    prefTail h (i + PREF_KEY.length)
  else none

/-- `re.search` for the preference line: `(start, end)` of the leftmost match. -/
def findPrefLine (h : Text) : Option (Nat × Nat) :=
  (List.range (h.length + 1)).findSome? (fun i => (prefAt h i).map (fun e => (i, e)))

/-- First occurrence of `n` in `h` at a position `≥ s` (the lazy gap of a
non-greedy group bounded by the literal `n`). -/
def firstOccFrom (n : Text) (h : Text) (s : Nat) : Option Nat :=
  (List.range (h.length + 1)).find? (fun i => decide (s ≤ i) && n.isPrefixOf (h.drop i))

/-- `re.search(r"^/\*\*[\s\S]*?\*/\s*", text)`: without `re.M` the anchor
only fits position 0; returns the match end. -/
def matchHeader (h : Text) : Option Nat :=
  if ("/**".toList).isPrefixOf h then
    (firstOccFrom ("*/".toList) h 3).map (fun m => m + 2 + wsLen (h.drop (m + 2)))
  else none

-- ---------------------------------------------------------------------------
-- The loader-IIFE pattern (`LOADER_IIFE_RE`)
-- ---------------------------------------------------------------------------

/-- Match of `LOADER_IIFE_RE` at the front of `h`; returns the match length.
The pattern is `\(function\(\)\{\s*` + the loader literal + `\s*\}\)\(\);`,
and each `\s*` is followed by a non-whitespace literal, so matching is
deterministic. -/
def matchLoaderIife (h : Text) : Option Nat :=
  if ("(function()\x7b".toList).isPrefixOf h then
    let r := h.drop 12
    let w := wsLen r
    if LOADER.isPrefixOf (r.drop w) then
      let r2 := r.drop (w + LOADER.length)
      let w2 := wsLen r2
      if IIFE_CLOSE.isPrefixOf (r2.drop w2) then some (12 + w + LOADER.length + w2 + 5)
      else none
    else none
  else none

/-- Scan of `LOADER_IIFE_RE.sub("", text)`; each step consumes at least one
character, so `length + 1` steps of fuel suffice. -/
def loaderIifeSubAux : Nat → Text → Text
  | 0, h => h
  | _+1, [] => []
  | fuel+1, c :: t =>
    match matchLoaderIife (c :: t) with
    | some len => loaderIifeSubAux fuel (t.drop (len - 1))
    | none => c :: loaderIifeSubAux fuel t

/-- `LOADER_IIFE_RE.sub("", text)`: delete all non-overlapping matches,
scanning left to right. -/
def loaderIifeSub (h : Text) : Text := loaderIifeSubAux (h.length + 1) h

-- ---------------------------------------------------------------------------
-- `ensure_target_and_loader`
-- ---------------------------------------------------------------------------

/-- The canonical pragma/loader/preference trio, each on its own line. -/
def CANON_HDR : Text := PRAGMA ++ '\n' :: (LOADER ++ '\n' :: (PREF_CANON ++ ['\n']))

/-- `"\n".join`. -/
def joinNL : List Text → Text
  | [] => []
  | [x] => x
  | x :: y :: xs => x ++ '\n' :: joinNL (y :: xs)

/-- The block `"\n" + "\n".join(insert_lines) + "\n"` inserted by the
canonicalizer when the preference statement is absent (all three lines). -/
def insertBlockFull : Text := '\n' :: (joinNL [PRAGMA, LOADER, PREF_CANON] ++ ['\n'])

/-- `ensure_target_and_loader` from the source: strip every loader
occurrence, then either replace the pragma..preference span with the
canonical trio, or insert the canonical block after the leading
doc-comment.  (The source's final `text if text != original else original`
is the identity on values and is omitted.) -/
def ensure_target_and_loader (t : Text) : Text :=
  let t1 := loaderIifeSub t
  let t2 := replaceAll (LOADER ++ ['\n']) [] t1
  let t3 := replaceAll ('\n' :: LOADER) [] t2
  match findPragmaLine t3, findPrefLine t3 with
  | some mt, some mp => t3.take mt ++ CANON_HDR ++ t3.drop mp.2
  | _, mpv =>
    let pos := (matchHeader t3).getD 0
    let ins := [PRAGMA, LOADER] ++ (if mpv.isSome then [] else [PREF_CANON])
    t3.take pos ++ '\n' :: (joinNL ins ++ '\n' :: t3.drop pos)

-- ---------------------------------------------------------------------------
-- The wrapper pattern `\(function\(\)\s*\{([\s\S]*?)\}\)\(\);`
-- ---------------------------------------------------------------------------

/-- Match of the wrapper pattern at offset `i`; returns `(end, body)`.
The non-greedy body stops at the first `\x7d)();` after the opening brace. -/
def matchIifeAt (h : Text) (i : Nat) : Option (Nat × Text) :=
  if FN_OPEN.isPrefixOf (h.drop i) then
    let j := i + 11
    let w := wsLen (h.drop j)
    if charAt h (j + w) '\x7b' then
      let bs := j + w + 1
      (firstOccFrom IIFE_CLOSE h bs).map (fun m => (m + 5, (h.drop bs).take (m - bs)))
    else none
  else none

/-- `re.finditer` for the wrapper pattern: non-overlapping matches scanned
left to right, resuming after each match end.  Each scan step advances the
position by at least one, so `h.length + 1` steps of fuel suffice. -/
def findIIFEsAux (h : Text) : Nat → Nat → List (Nat × Nat × Text)
  | 0, _ => []
  | fuel+1, i =>
    if i < h.length then
      match matchIifeAt h i with
      | some (e, b) => (i, e, b) :: findIIFEsAux h fuel (max e (i+1))
      | none => findIIFEsAux h fuel (i+1)
    else []

def findIIFEs (h : Text) : List (Nat × Nat × Text) := findIIFEsAux h (h.length + 1) 0

-- ---------------------------------------------------------------------------
-- Guard and alert extraction
-- ---------------------------------------------------------------------------

/-- `\b` of Python's `re` before a word character, ASCII model. -/
def wordBoundaryAt (b : Text) (i : Nat) : Bool :=
  i == 0 || (match b[i-1]? with | some c => !(isWordB c) | none => true)

/-- Match of `\bmain\s*\(\s*\)\s*;` at offset `i`. -/
def mainCallAt (b : Text) (i : Nat) : Bool :=
  wordBoundaryAt b i && ("main".toList).isPrefixOf (b.drop i) &&
  (let p1 := skipWsFrom b (i + 4)
   charAt b p1 '(' &&
   (let p2 := skipWsFrom b (p1 + 1)
    charAt b p2 ')' &&
    (let p3 := skipWsFrom b (p2 + 1)
     charAt b p3 ';')))

def searchMainCall (b : Text) : Bool := (List.range (b.length + 1)).any (mainCallAt b)

/-- Match of `validateEnvironment\s*\(\s*\)` at offset `i`. -/
def validateAt (b : Text) (i : Nat) : Bool :=
  VALIDATE_MARK.isPrefixOf (b.drop i) &&
  (let p1 := skipWsFrom b (i + VALIDATE_MARK.length)
   charAt b p1 '(' &&
   (let p2 := skipWsFrom b (p1 + 1)
    charAt b p2 ')'))

def searchValidate (b : Text) : Bool := (List.range (b.length + 1)).any (validateAt b)

/-- Match of `if\s*\(\s*!\s*MARK\s*\)\s*\{([\s\S]*?)\}` at offset `i`;
returns the group (up to the first closing brace). -/
def guardAt (mark : Text) (b : Text) (i : Nat) : Option Text :=
  if ("if".toList).isPrefixOf (b.drop i) then
    let p1 := skipWsFrom b (i + 2)
    if charAt b p1 '(' then
      let p2 := skipWsFrom b (p1 + 1)
      if charAt b p2 '!' then
        let p3 := skipWsFrom b (p2 + 1)
        if mark.isPrefixOf (b.drop p3) then
          let p4 := skipWsFrom b (p3 + mark.length)
          if charAt b p4 ')' then
            let p5 := skipWsFrom b (p4 + 1)
            if charAt b p5 '\x7b' then
              let bs := p5 + 1
              (firstOccFrom ("\x7d".toList) b bs).map (fun m => (b.drop bs).take (m - bs))
            else none
          else none
        else none
      else none
    else none
  else none

/-- `re.search` for a guard conditional: group of the leftmost match. -/
def findGuard (mark : Text) (b : Text) : Option Text :=
  (List.range (b.length + 1)).findSome? (guardAt mark b)

/-- Stop `\)\s*;` of the lazy group of `alert\((.*?)\)\s*;` at offset `t`. -/
def alertStopAt (g : Text) (t : Nat) : Bool :=
  charAt g t ')' && charAt g (skipWsFrom g (t+1)) ';'

/-- Match of `alert\((.*?)\)\s*;` (`re.S`) at offset `i`: the group grows
lazily to the first stop. -/
def alertArgAt (g : Text) (i : Nat) : Option Text :=
  if ("alert(".toList).isPrefixOf (g.drop i) then
    ((List.range (g.length + 1)).find? (fun t => decide (i + 6 ≤ t) && alertStopAt g t)).map
      (fun t => (g.drop (i + 6)).take (t - (i + 6)))
  else none

def findAlertArg (g : Text) : Option Text :=
  (List.range (g.length + 1)).findSome? (alertArgAt g)

/-- Match of `alert\((.*?)\);` (`re.S`, no gap before the semicolon) at
offset `i` — the variant used for validation wrappers. -/
def alertArgAtNG (g : Text) (i : Nat) : Option Text :=
  if ("alert(".toList).isPrefixOf (g.drop i) then
    ((List.range (g.length + 1)).find? (fun t =>
        decide (i + 6 ≤ t) && charAt g t ')' && charAt g (t+1) ';')).map
      (fun t => (g.drop (i + 6)).take (t - (i + 6)))
  else none

def findAlertArgNG (g : Text) : Option Text :=
  (List.range (g.length + 1)).findSome? (alertArgAtNG g)

/-- Match of `\breturn\s*;` at offset `i`; returns the match length. -/
def returnMatchLen (s : Text) (i : Nat) : Option Nat :=
  if wordBoundaryAt s i && ("return".toList).isPrefixOf (s.drop i) then
    let w := wsLen (s.drop (i + 6))
    if charAt s (i + 6 + w) ';' then some (6 + w + 1) else none
  else none

/-- Scan of `re.sub(r"\breturn\s*;", "", s)`: matches are located against
the original string, non-overlapping, left to right. -/
def stripReturnsAux (s : Text) : Nat → Nat → Text
  | 0, _ => []
  | fuel+1, i =>
    match s[i]? with
    | none => []
    | some c =>
      match returnMatchLen s i with
      | some len => stripReturnsAux s fuel (i + len)
      | none => c :: stripReturnsAux s fuel (i + 1)

/-- `strip_returns` from the source. -/
def strip_returns (s : Text) : Text := stripReturnsAux s (s.length + 1) 0

/-- Match of `scriptName\s*:\s*([\'\"])(.*?)\1` at offset `i`: the value
group (without `re.S`, so it must close with the same quote before any
newline). -/
def scriptNameAt (t : Text) (i : Nat) : Option Text :=
  if SCRIPTNAME_KEY.isPrefixOf (t.drop i) then
    let p1 := skipWsFrom t (i + SCRIPTNAME_KEY.length)
    if charAt t p1 ':' then
      let p2 := skipWsFrom t (p1 + 1)
      match t[p2]? with
      | some q =>
        if q == '\'' || q == '"' then
          let vs := p2 + 1
          ((List.range (t.length + 1)).find? (fun m =>
              decide (vs ≤ m) && (t[m]? == some q || t[m]? == some '\n'))).bind
            (fun m => if t[m]? == some q then some ((t.drop vs).take (m - vs)) else none)
        else none
      | none => none
    else none
  else none

/-- `extract_cfg_script_name` from the source. -/
def extract_cfg_script_name (t : Text) : Text :=
  match (List.range (t.length + 1)).findSome? (scriptNameAt t) with
  | some name => name ++ (" error".toList)
  | none => "Script error".toList

-- ---------------------------------------------------------------------------
-- `build_execute_block`
-- ---------------------------------------------------------------------------

/-- The three banner lines opening every execute block. -/
def bannerLines : List Text :=
  [('\n' :: BANNER_EQ), BANNER, BANNER_EQ ++ ['\n']]

/-- The common `try/catch` tail of the guarded branches. -/
def guardTail (error_title : Text) : List Text :=
  ["    try \x7b".toList,
   "        main();".toList,
   "    \x7d catch (e) \x7b".toList,
   "        AIS.Error.show('".toList ++ error_title ++ "', e);".toList,
   "    \x7d".toList,
   "\x7d".toList]

/-- `build_execute_block` from the source. -/
def build_execute_block (doc_check sel_check : Option Text) (error_title : Text)
    (validate_block : Option Text) : Text :=
  match validate_block with
  | some vb =>
    let alertLine := match findAlertArgNG vb with
      | some a => "    alert(".toList ++ pstrip a ++ ");".toList
      | none => "    alert('Validation failed.');".toList
    joinNL (bannerLines ++
      ["var validation = validateEnvironment();".toList,
       "if (!validation.valid) \x7b".toList,
       alertLine,
       "\x7d else \x7b".toList] ++ guardTail error_title) ++ ['\n']
  | none =>
    match doc_check, sel_check with
    | some dc, some sc =>
      joinNL (bannerLines ++
        ["if (!AIS.Document.hasDocument()) \x7b".toList,
         "    ".toList ++ dc,
         "\x7d else if (!AIS.Document.hasSelection()) \x7b".toList,
         "    ".toList ++ sc,
         "\x7d else \x7b".toList] ++ guardTail error_title) ++ ['\n']
    | some dc, none =>
      joinNL (bannerLines ++
        ["if (!AIS.Document.hasDocument()) \x7b".toList,
         "    ".toList ++ dc,
         "\x7d else \x7b".toList] ++ guardTail error_title) ++ ['\n']
    | none, some sc =>
      joinNL (bannerLines ++
        ["if (!AIS.Document.hasSelection()) \x7b".toList,
         "    ".toList ++ sc,
         "\x7d else \x7b".toList] ++ guardTail error_title) ++ ['\n']
    | none, none =>
      joinNL (bannerLines ++
        ["try \x7b".toList,
         "    main();".toList,
         "\x7d catch (e) \x7b".toList,
         "    AIS.Error.show('".toList ++ error_title ++ "', e);".toList,
         "\x7d".toList]) ++ ['\n']

-- ---------------------------------------------------------------------------
-- `remove_wrapper_and_build_execute` and `process_jsx_file`
-- ---------------------------------------------------------------------------

/-- Extraction of one inline guard check: the guard conditional's group, its
embedded alert argument, stripped and re-wrapped (`doc_check` / `sel_check`
of the source). -/
def guardCheckOf (mark : Text) (content : Text) : Option Text :=
  (findGuard mark content).bind (fun g =>
    (findAlertArg g).map (fun a =>
      strip_returns ("alert(".toList ++ pstrip a ++ ");".toList)))

/-- `remove_wrapper_and_build_execute` from the source: choose the first
wrapper whose body calls `main` (else the first wrapper), classify its
guards, delete its span, and append the synthesized execute block. -/
def remove_wrapper_and_build_execute (t : Text) : Text × Bool :=
  match findIIFEs t with
  | [] => (t, false)
  | x :: xs =>
    let chosen := (((x :: xs).find? (fun m => searchMainCall m.2.2)).getD x)
    let content := chosen.2.2
    let validate_block := if searchValidate content then some content else none
    let doc_check := guardCheckOf DOC_MARK content
    let sel_check := guardCheckOf SEL_MARK content
    let t2 := t.take chosen.1 ++ t.drop chosen.2.1
    let error_title := extract_cfg_script_name t2
    let t3 := rstrip t2 ++ '\n' :: build_execute_block doc_check sel_check error_title validate_block
    (t3, !(t3 == t))

/-- `process_jsx_file` from the source, with the file write modelled by
returning the final text: header canonicalization, then wrapper extraction
and execute-block synthesis; reports whether either stage changed the text. -/
def process_jsx_file (t : Text) : Text × Bool :=
  let t1 := ensure_target_and_loader t
  let c1 := !(t1 == t)
  let r := remove_wrapper_and_build_execute t1
  let tf := if r.2 then r.1 else t1
  (tf, c1 || r.2)

/-- Number of positions at which the pragma-line pattern matches. -/
def pragmaLineCount (h : Text) : Nat := (List.range (h.length + 1)).countP (pragmaAt h)

/-- Number of positions at which the preference-line pattern matches. -/
def prefLineCount (h : Text) : Nat :=
  (List.range (h.length + 1)).countP (fun i => (prefAt h i).isSome)

end NJX

namespace GEN

/-! Embedding of `generate_scripts.py`. -/

/-- Python `content.split('\n')`. -/
def splitNl : NJX.Text → List NJX.Text
  | [] => [[]]
  | c :: t =>
    if c == '\n' then [] :: splitNl t
    else
      match splitNl t with
      | [] => [[c]]
      | l :: ls => (c :: l) :: ls

/-- The non-blank, non-comment lines counted by `is_simple_script`. -/
def codeLines (content : NJX.Text) : List NJX.Text :=
  (splitNl content).filter (fun l =>
    !(NJX.pstrip l == ([] : NJX.Text)) && !(("//".toList).isPrefixOf (NJX.pstrip l)))

/-- `SIMPLE_MAX_LINES`. -/
def SIMPLE_MAX_LINES : Nat := 30

/-- Case-insensitive substring test (ASCII case fold, `re.IGNORECASE` with a
literal pattern); `lc` is the case-folded content. -/
def lcContains (lc : NJX.Text) (n : String) : Bool :=
  (List.range (lc.length + 1)).any (fun i => n.toList.isPrefixOf (lc.drop i))

/-- Match of `LIT\s*C` (`re.IGNORECASE`) somewhere in the case-folded text:
the literal, a whitespace run, then the character `c`. -/
def litWsCharHit (lc : NJX.Text) (lit : String) (c : Char) : Bool :=
  (List.range (lc.length + 1)).any (fun i =>
    lit.toList.isPrefixOf (lc.drop i) && NJX.charAt lc (NJX.skipWsFrom lc (i + lit.toList.length)) c)

/-- Match of `function.*function` (`re.IGNORECASE`, no `re.S`: the gap must
stay on one line). -/
def hasFuncFunc (lc : NJX.Text) : Bool :=
  (List.range (lc.length + 1)).any (fun i =>
    ("function".toList).isPrefixOf (lc.drop i) &&
    (List.range (lc.length + 1)).any (fun j =>
      decide (i + 8 ≤ j) && ("function".toList).isPrefixOf (lc.drop j) &&
      ((lc.drop (i + 8)).take (j - (i + 8))).all (fun ch => !(ch == '\n'))))

/-- The `COMPLEX_KEYWORDS` scan, in source order; returns the raw pattern
string of the first hit. -/
def hasComplexKeyword (content : NJX.Text) : Option String :=
  let lc := content.map Char.toLower
  if lcContains lc "window" then some "Window"
  else if lcContains lc "dialog" then some "dialog"
  else if lcContains lc ".show()" then some "\\.show\\(\\)"
  else if lcContains lc "panel" then some "panel"
  else if litWsCharHit lc "for" '(' then some "for\\s*\\("
  else if litWsCharHit lc "while" '(' then some "while\\s*\\("
  else if litWsCharHit lc "do" '\x7b' then some "do\\s*\\\x7b"
  else if hasFuncFunc lc then some "function.*function"
  else if lcContains lc "switch" then some "switch"
  else if lcContains lc "case" then some "case"
  else none

/-- Number of opening braces in the content (`content.count('{')`). -/
def braceCount (content : NJX.Text) : Nat := content.count '\x7b'

/-- `is_simple_script` from the source, on the content of an existing,
readable file (the `exists`/read-error guards are handled by the caller's
oracle in `generate_scripts` below). -/
def is_simple_script (content : NJX.Text) : Bool × String :=
  let lines := codeLines content
  if lines.length > SIMPLE_MAX_LINES then
    (false, "Too many lines (" ++ toString lines.length ++ ")")
  else
    match hasComplexKeyword content with
    | some kw => (false, "Contains complex keyword: " ++ kw)
    | none =>
      if braceCount content > 5 then (false, "Too many code blocks")
      else (true, "Simple")

/-- The nesting depth of braces, as the specification's words
"brace nesting is bounded" describe it (this is not what the source
computes; it is the spec-side reading, kept for comparison). -/
def specBraceNesting (content : NJX.Text) : Nat :=
  (content.foldl (fun st c =>
    let d := if c == '\x7b' then st.1 + 1 else if c == '\x7d' then st.1 - 1 else st.1
    (d, max st.2 d)) ((0 : Int), (0 : Int))).2.toNat

/-- The analysis loop of `generate_scripts`: partition the manifest scripts
into simple / complex (with reason) / missing, in manifest order.  The
filesystem is modelled by the oracles `ex` (does the referenced original
exist) and `simple` (the `is_simple_script` verdict on its content). -/
def analyzeScripts (ex : α → Bool) (simple : α → Bool × String) :
    List α → List α × List (α × String) × List α
  | [] => ([], [], [])
  | s :: rest =>
    let r := analyzeScripts ex simple rest
    if !(ex s) then (r.1, r.2.1, s :: r.2.2)
    else if (simple s).1 then (s :: r.1, r.2.1, r.2.2)
    else (r.1, (s, (simple s).2) :: r.2.1, r.2.2)

/-- The generation loop over the simple scripts: `w s = none` means the
read/generate/write `try` block succeeded, `some e` that it raised `e`. -/
def generateLoop (w : α → Option String) : List α → List α × List (α × String)
  | [] => ([], [])
  | s :: rest =>
    let r := generateLoop w rest
    match w s with
    | none => (s :: r.1, r.2)
    | some e => (r.1, (s, e) :: r.2)

/-- The `stats` dictionary written to `generation_stats.json`. -/
structure Stats where
  total_scripts : Nat
  simple_generated : Nat
  complex_manual : Nat
  failed : Nat
  missing : Nat
  deriving DecidableEq, Repr

/-- `generate_scripts` from the source, reduced to its counting skeleton:
the manifest scripts, the analysis partition, the generation loop, and the
final stats. -/
def generate_scripts (scripts : List α) (ex : α → Bool) (simple : α → Bool × String)
    (w : α → Option String) : Stats :=
  let a := analyzeScripts ex simple scripts
  let g := generateLoop w a.1
  ⟨scripts.length, g.1.length, a.2.1.length, g.2.length, a.2.2.length⟩

end GEN

namespace DRV

/-! Embedding of the normalizer's tree-walking driver (`main` of
`normalize_jsx_structure.py`).  The matching `.jsx` files found by `os.walk`
are modelled as a list, a file whose read raises an `OSError` as `none`,
and a readable file by its content. -/

/-- `read_text`: raises on an unreadable file (decode errors are suppressed
by `errors="ignore"`, but I/O errors propagate). -/
def read_text : Option NJX.Text → Except Unit NJX.Text
  | some c => .ok c
  | none => .error ()

/-- `process_jsx_file` at the driver boundary: any exception raised while
reading propagates. -/
def processFile (f : Option NJX.Text) : Except Unit (NJX.Text × Bool) :=
  (read_text f).map NJX.process_jsx_file

/-- The `main` loop: visit each matching file in turn, counting files and
modifications; there is no exception handling around `process_jsx_file`,
so a failure propagates and aborts the walk before the summary. -/
def mainWalk : List (Option NJX.Text) → Nat → Nat → Except Unit (Nat × Nat)
  | [], files, count => .ok (files, count)
  | f :: rest, files, count =>
    match processFile f with
    | .error e => .error e
    | .ok r => mainWalk rest (files + 1) (count + if r.2 then 1 else 0)

/-- Number of files the walk actually attempts before it stops (the failing
file is attempted; everything after it is not). -/
def visitedCount : List (Option NJX.Text) → Nat
  | [] => 0
  | none :: _ => 1
  | some _ :: rest => 1 + visitedCount rest

end DRV

-- ===========================================================================
-- Lemmas
-- ===========================================================================

namespace NJX

theorem countOcc_nil (n : Text) : countOcc n [] = 0 := rfl

theorem countOcc_cons (n : Text) (c : Char) (t : Text) :
    countOcc n (c :: t) = (if n.isPrefixOf (c :: t) then 1 else 0) + countOcc n t := rfl

/-- An occurrence of a nonempty needle gives a positive count. -/
theorem occ_le_countOcc {n : Text} (hn : n ≠ []) {h : Text} {i : Nat}
    (hocc : n.isPrefixOf (h.drop i) = true) : 1 ≤ countOcc n h := by
  induction h generalizing i with
  | nil =>
    rw [List.drop_nil, List.isPrefixOf_iff_prefix] at hocc
    exact absurd (List.prefix_nil.mp hocc) hn
  | cons c t ih =>
    rw [countOcc_cons]
    cases i with
    | zero =>
      rw [List.drop_zero] at hocc
      rw [if_pos hocc]
      omega
    | succ i =>
      rw [List.drop_succ_cons] at hocc
      have := ih hocc
      omega

/-- Occurrences of a nonempty needle at two distinct positions give a count
of at least two. -/
theorem two_occ_le_countOcc {n : Text} (hn : n ≠ []) {h : Text} {i j : Nat}
    (hij : i < j) (hi : n.isPrefixOf (h.drop i) = true)
    (hj : n.isPrefixOf (h.drop j) = true) : 2 ≤ countOcc n h := by
  induction h generalizing i j with
  | nil =>
    rw [List.drop_nil, List.isPrefixOf_iff_prefix] at hi
    exact absurd (List.prefix_nil.mp hi) hn
  | cons c t ih =>
    rw [countOcc_cons]
    cases i with
    | zero =>
      rw [List.drop_zero] at hi
      obtain ⟨j, rfl⟩ : ∃ j', j = j' + 1 := ⟨j - 1, by omega⟩
      rw [List.drop_succ_cons] at hj
      have := occ_le_countOcc hn hj
      rw [if_pos hi]
      omega
    | succ i =>
      obtain ⟨j, rfl⟩ : ∃ j', j = j' + 1 := ⟨j - 1, by omega⟩
      rw [List.drop_succ_cons] at hi hj
      have := ih (by omega : i < j) hi hj
      omega

/-- A positive count of a nonempty needle comes from an occurrence. -/
theorem countOcc_pos_iff {n : Text} (hn : n ≠ []) {h : Text} :
    1 ≤ countOcc n h ↔ ∃ i, n.isPrefixOf (h.drop i) = true := by
  constructor
  · intro hpos
    induction h with
    | nil => simp [countOcc_nil] at hpos
    | cons c t ih =>
      rw [countOcc_cons] at hpos
      by_cases hc : n.isPrefixOf (c :: t) = true
      · exact ⟨0, by simpa using hc⟩
      · rw [if_neg hc] at hpos
        obtain ⟨i, hi⟩ := ih (by omega)
        exact ⟨i + 1, by simpa [List.drop_succ_cons] using hi⟩
  · rintro ⟨i, hi⟩
    exact occ_le_countOcc hn hi

theorem countOcc_eq_zero_iff {n : Text} (hn : n ≠ []) {h : Text} :
    countOcc n h = 0 ↔ ∀ i, ¬(n.isPrefixOf (h.drop i) = true) := by
  constructor
  · intro h0 i hi
    have := occ_le_countOcc hn hi
    omega
  · intro hall
    by_contra hne
    obtain ⟨i, hi⟩ := (countOcc_pos_iff hn (h := h)).mp (by omega)
    exact hall i hi

/-- Appending on the right cannot destroy occurrences. -/
theorem countOcc_le_append_left (n a b : Text) :
    countOcc n a ≤ countOcc n (a ++ b) := by
  induction a with
  | nil => simp [countOcc_nil]
  | cons c t ih =>
    rw [List.cons_append, countOcc_cons, countOcc_cons]
    have hbool : n.isPrefixOf (c :: t) = true → n.isPrefixOf (c :: (t ++ b)) = true := by
      intro hp
      rw [List.isPrefixOf_iff_prefix] at hp ⊢
      rw [← List.cons_append]
      exact hp.trans (List.prefix_append _ _)
    by_cases hc : n.isPrefixOf (c :: t) = true
    · rw [if_pos hc, if_pos (hbool hc)]; omega
    · rw [if_neg hc]
      have : (0 : Nat) ≤ if n.isPrefixOf (c :: (t ++ b)) = true then 1 else 0 := by positivity
      omega

/-- Prepending on the left cannot destroy occurrences. -/
theorem countOcc_le_append_right (n a b : Text) :
    countOcc n b ≤ countOcc n (a ++ b) := by
  induction a with
  | nil => simp
  | cons c t ih =>
    rw [List.cons_append, countOcc_cons]
    omega

theorem countOcc_le_of_isPrefix {n p h : Text} (hp : p <+: h) :
    countOcc n p ≤ countOcc n h := by
  obtain ⟨t, rfl⟩ := hp
  exact countOcc_le_append_left n p t

/-- Splitting the count over an append point with no straddling occurrence:
if no proper split of the needle has its head part a suffix of `a` and its
tail part a prefix of `b`, the counts add. -/
theorem countOcc_append {n : Text} {a b : Text}
    (hcross : ∀ k, 0 < k → k < n.length → ¬((n.take k) <:+ a ∧ (n.drop k) <+: b)) :
    countOcc n (a ++ b) = countOcc n a + countOcc n b := by
  induction a with
  | nil => simp [countOcc_nil]
  | cons c t ih =>
    have hcross' : ∀ k, 0 < k → k < n.length → ¬((n.take k) <:+ t ∧ (n.drop k) <+: b) := by
      intro k hk1 hk2 hand
      exact hcross k hk1 hk2 ⟨hand.1.trans (List.suffix_cons c t), hand.2⟩
    rw [List.cons_append, countOcc_cons, countOcc_cons, ih hcross']
    have hiff : n.isPrefixOf (c :: (t ++ b)) = n.isPrefixOf (c :: t) := by
      by_cases hct : n.isPrefixOf (c :: t) = true
      · rw [hct, List.isPrefixOf_iff_prefix]
        rw [List.isPrefixOf_iff_prefix] at hct
        rw [← List.cons_append]
        exact hct.trans (List.prefix_append _ _)
      · rw [Bool.eq_false_iff.mpr hct, Bool.eq_false_iff]
        intro hctb
        apply hct
        rw [List.isPrefixOf_iff_prefix] at hctb ⊢
        by_cases hlen : n.length ≤ t.length + 1
        · exact List.prefix_of_prefix_length_le hctb
            (by rw [← List.cons_append]; exact List.prefix_append _ _)
            (by simpa using hlen)
        · exfalso
          have hLlt : t.length + 1 < n.length := by omega
          have hctn : (c :: t) <+: n := by
            apply List.prefix_of_prefix_length_le _ hctb (by simp; omega)
            rw [← List.cons_append]
            exact List.prefix_append _ _
          have htake : n.take (t.length + 1) = c :: t := by
            have := List.prefix_iff_eq_take.mp hctn
            simpa using this.symm
          have hdrop : (n.drop (t.length + 1)) <+: b := by
            obtain ⟨r, hr⟩ := hctb
            refine ⟨r, ?_⟩
            have := congrArg (List.drop (t.length + 1)) hr
            rw [List.drop_append_eq_append_drop] at this
            rw [Nat.sub_eq_zero_of_le (by omega), List.drop_zero] at this
            rw [this, List.drop_succ_cons, List.drop_left]
          exact hcross (t.length + 1) (by omega) hLlt
            ⟨by rw [htake], hdrop⟩
    rw [hiff]
    omega

/-- A newline-free needle cannot straddle an append point whose left part
ends with a newline (or is empty): the counts add. -/
theorem countOcc_append_nlLeft {n : Text} (hnl : ∀ c ∈ n, c ≠ '\n') {a b : Text}
    (ha : a = [] ∨ a.getLast? = some '\n') :
    countOcc n (a ++ b) = countOcc n a + countOcc n b := by
  apply countOcc_append
  intro k hk1 hk2 hand
  have htne : n.take k ≠ [] := by
    rw [Ne, List.take_eq_nil_iff]
    push_neg
    exact ⟨by omega, fun hn0 => by simp [hn0] at hk2⟩
  rcases ha with rfl | ha
  · exact htne (List.suffix_nil.mp hand.1)
  · obtain ⟨u, hu⟩ := hand.1
    rw [← hu, List.getLast?_append, List.getLast?_eq_getLast _ htne] at ha
    have hsome : some ((n.take k).getLast htne) = some '\n' := ha
    have hmem : '\n' ∈ n.take k := Option.some.inj hsome ▸ List.getLast_mem htne
    exact hnl '\n' (List.mem_of_mem_take hmem) rfl

/-- A newline-free needle cannot straddle an append point whose right part
starts with a newline: the counts add. -/
theorem countOcc_append_nlRight {n : Text} (hnl : ∀ c ∈ n, c ≠ '\n') {a b : Text} :
    countOcc n (a ++ '\n' :: b) = countOcc n a + countOcc n ('\n' :: b) := by
  apply countOcc_append
  intro k hk1 hk2 hand
  have hdne : n.drop k ≠ [] := by
    rw [Ne, List.drop_eq_nil_iff]
    omega
  obtain ⟨r, hr⟩ := hand.2
  cases hnk : n.drop k with
  | nil => exact hdne hnk
  | cons d ds =>
    rw [hnk, List.cons_append] at hr
    injection hr with h1 _
    have hd : d ∈ n := List.mem_of_mem_drop (by rw [hnk]; exact List.mem_cons_self d ds)
    exact hnl d hd h1

/-- An occurrence inside a front piece is an occurrence of the whole text. -/
theorem occ_of_occ_take {n h : Text} {e i : Nat}
    (hocc : n.isPrefixOf ((h.take e).drop i) = true) :
    n.isPrefixOf (h.drop i) = true := by
  rw [List.isPrefixOf_iff_prefix] at hocc ⊢
  rw [List.drop_take] at hocc
  exact hocc.trans (List.take_prefix _ _)

/-- Occurrences inside a tail piece are occurrences of the whole text,
shifted. -/
theorem occ_drop_shift {n h : Text} {e j : Nat} :
    n.isPrefixOf ((h.drop e).drop j) = n.isPrefixOf (h.drop (e + j)) := by
  rw [List.drop_drop]

/-- If the needle occurs exactly once, at or after position `e`, then the
front piece `h.take e` contains no occurrence. -/
theorem countOcc_take_eq_zero {n h : Text} (hn : n ≠ []) {p e : Nat}
    (h1 : countOcc n h = 1) (hp : n.isPrefixOf (h.drop p) = true) (hep : e ≤ p) :
    countOcc n (h.take e) = 0 := by
  rw [countOcc_eq_zero_iff hn]
  intro i hi
  have hiw : n.isPrefixOf (h.drop i) = true := occ_of_occ_take hi
  have hlt : i < e := by
    by_contra hge
    have : (h.take e).drop i = [] := by
      rw [List.drop_eq_nil_iff]
      have := List.length_take e h
      omega
    rw [this, List.isPrefixOf_iff_prefix] at hi
    exact hn (List.prefix_nil.mp hi)
  have := two_occ_le_countOcc hn (by omega : i < p) hiw hp
  omega

/-- If the needle occurs exactly once, strictly before position `e`, then the
tail piece `h.drop e` contains no occurrence. -/
theorem countOcc_drop_eq_zero {n h : Text} (hn : n ≠ []) {p e : Nat}
    (h1 : countOcc n h = 1) (hp : n.isPrefixOf (h.drop p) = true) (hpe : p < e) :
    countOcc n (h.drop e) = 0 := by
  rw [countOcc_eq_zero_iff hn]
  intro j hj
  rw [occ_drop_shift] at hj
  have := two_occ_le_countOcc hn (by omega : p < e + j) hp hj
  omega

theorem rstrip_isPrefix (h : Text) : rstrip h <+: h := by
  have hx : (rstrip h).reverse <:+ h.reverse := by
    unfold rstrip
    rw [List.reverse_reverse]
    exact List.dropWhile_suffix _
  exact List.reverse_suffix.mp hx

/-- Extending a needle on the right preserves absence. -/
theorem countOcc_zero_extendR {n : Text} (hn : n ≠ []) {h : Text} (m : Text)
    (hz : countOcc n h = 0) : countOcc (n ++ m) h = 0 := by
  rw [countOcc_eq_zero_iff (by simp [hn] : n ++ m ≠ ([] : Text))]
  intro i hi
  rw [List.isPrefixOf_iff_prefix] at hi
  have : n.isPrefixOf (h.drop i) = true := by
    rw [List.isPrefixOf_iff_prefix]
    exact (List.prefix_append n m).trans hi
  have := occ_le_countOcc hn this
  omega

/-- Extending a needle on the left preserves absence. -/
theorem countOcc_zero_extendL {n : Text} (hn : n ≠ []) {h : Text} (c : Char)
    (hz : countOcc n h = 0) : countOcc (c :: n) h = 0 := by
  rw [countOcc_eq_zero_iff (by simp : c :: n ≠ ([] : Text))]
  intro i hi
  rw [List.isPrefixOf_iff_prefix] at hi
  obtain ⟨r, hr⟩ := hi
  have : n.isPrefixOf (h.drop (i + 1)) = true := by
    rw [List.isPrefixOf_iff_prefix]
    refine ⟨r, ?_⟩
    have := congrArg (List.drop 1) hr
    rw [List.drop_drop] at this
    simpa using this
  have := occ_le_countOcc hn this
  omega

theorem replaceAllAux_eq_of_countOcc_zero {n r : Text} :
    ∀ (fuel : Nat) (h : Text), countOcc n h = 0 → replaceAllAux n r fuel h = h := by
  intro fuel
  induction fuel with
  | zero => intro h _; rfl
  | succ fuel ih =>
    intro h hz
    cases h with
    | nil => rfl
    | cons c t =>
      have hpf : n.isPrefixOf (c :: t) = false := by
        by_contra hb
        rw [Bool.not_eq_false] at hb
        have := occ_le_countOcc (n := n)
          (by rintro rfl; rw [countOcc_cons] at hz; simp at hz)
          (i := 0) (by simpa using hb)
        omega
      rw [countOcc_cons, hpf] at hz
      simp only [Bool.false_eq_true, if_false, Nat.zero_add] at hz
      show (if n.isPrefixOf (c :: t) && decide (1 ≤ n.length) then _ else _) = _
      rw [hpf, Bool.false_and, if_neg (by simp)]
      rw [ih t hz]

/-- `str.replace` is the identity when the needle does not occur. -/
theorem replaceAll_eq_of_countOcc_zero {n r h : Text} (hz : countOcc n h = 0) :
    replaceAll n r h = h :=
  replaceAllAux_eq_of_countOcc_zero _ h hz

/-- A loader-IIFE match contains a loader occurrence. -/
theorem matchLoaderIife_occ {h : Text} {len : Nat}
    (hm : matchLoaderIife h = some len) : 1 ≤ countOcc LOADER h := by
  simp only [matchLoaderIife] at hm
  split_ifs at hm with h1 h2 h3
  refine occ_le_countOcc (by decide) (i := 12 + wsLen (h.drop 12)) ?_
  rw [← List.drop_drop]
  exact h2

theorem loaderIifeSubAux_eq_of_countOcc_zero :
    ∀ (fuel : Nat) (h : Text), countOcc LOADER h = 0 → loaderIifeSubAux fuel h = h := by
  intro fuel
  induction fuel with
  | zero => intro h _; rfl
  | succ fuel ih =>
    intro h hz
    cases h with
    | nil => rfl
    | cons c t =>
      have hmn : matchLoaderIife (c :: t) = none := by
        cases hm : matchLoaderIife (c :: t) with
        | none => rfl
        | some len =>
          have := matchLoaderIife_occ hm
          omega
      show (match matchLoaderIife (c :: t) with
            | some len => loaderIifeSubAux fuel (t.drop (len - 1))
            | none => c :: loaderIifeSubAux fuel t) = c :: t
      rw [hmn]
      have hzt : countOcc LOADER t = 0 := by
        rw [countOcc_cons] at hz
        omega
      rw [ih t hzt]

/-- `LOADER_IIFE_RE.sub` is the identity when the loader does not occur. -/
theorem loaderIifeSub_eq_of_countOcc_zero {h : Text} (hz : countOcc LOADER h = 0) :
    loaderIifeSub h = h :=
  loaderIifeSubAux_eq_of_countOcc_zero _ h hz

/-- The whole loader-stripping phase of `ensure_target_and_loader` is the
identity when the loader does not occur in the text. -/
theorem stripLoaders_eq {t : Text} (hz : countOcc LOADER t = 0) :
    replaceAll ('\n' :: LOADER) []
      (replaceAll (LOADER ++ ['\n']) [] (loaderIifeSub t)) = t := by
  rw [loaderIifeSub_eq_of_countOcc_zero hz,
      replaceAll_eq_of_countOcc_zero (countOcc_zero_extendR (by decide) _ hz),
      replaceAll_eq_of_countOcc_zero (countOcc_zero_extendL (by decide) _ hz)]

/-- The substring count as a position count over the scan range. -/
theorem countOcc_eq_countP {n : Text} (hn : n ≠ []) (h : Text) :
    countOcc n h = (List.range (h.length + 1)).countP (fun i => n.isPrefixOf (h.drop i)) := by
  induction h with
  | nil =>
    have : n.isPrefixOf ([] : Text) = false := by
      cases n with
      | nil => exact absurd rfl hn
      | cons c t => rfl
    simp [countOcc_nil, this]
  | cons c t ih =>
    rw [countOcc_cons, ih]
    conv_rhs => rw [List.length_cons, List.range_succ_eq_map, List.countP_cons,
      List.countP_map]
    have : ((fun i => n.isPrefixOf ((c :: t).drop i)) ∘ Nat.succ) =
        fun i => n.isPrefixOf (t.drop i) := by
      funext i
      simp [List.drop_succ_cons]
    rw [this]
    simp only [List.drop_zero]
    omega

theorem pragmaAt_occ {h : Text} {i : Nat} (hp : pragmaAt h i = true) :
    PRAGMA.isPrefixOf (h.drop i) = true := by
  unfold pragmaAt at hp
  simp only [Bool.and_eq_true] at hp
  exact hp.1.2

theorem prefAt_occ {h : Text} {i : Nat} (hp : (prefAt h i).isSome = true) :
    PREF_KEY.isPrefixOf (h.drop i) = true := by
  unfold prefAt at hp
  split_ifs at hp with hcond
  · simp only [Bool.and_eq_true] at hcond
    exact hcond.2
  · simp at hp

theorem pragmaLineCount_le (h : Text) : pragmaLineCount h ≤ countOcc PRAGMA h := by
  rw [countOcc_eq_countP (by decide)]
  exact List.countP_mono_left (fun i _ hp => pragmaAt_occ hp)

theorem prefLineCount_le (h : Text) : prefLineCount h ≤ countOcc PREF_KEY h := by
  rw [countOcc_eq_countP (by decide)]
  exact List.countP_mono_left (fun i _ hp => prefAt_occ hp)

theorem one_le_countP_range {p : Nat → Bool} {N i : Nat} (hi : i < N)
    (hpi : p i = true) : 1 ≤ (List.range N).countP p := by
  rw [Nat.one_le_iff_ne_zero, Ne, List.countP_eq_zero]
  push_neg
  exact ⟨i, List.mem_range.mpr hi, hpi⟩

theorem two_le_countP_range {p : Nat → Bool} {N i j : Nat} (hij : i ≠ j)
    (hi : i < N) (hj : j < N) (hpi : p i = true) (hpj : p j = true) :
    2 ≤ (List.range N).countP p := by
  rw [List.countP_eq_length_filter]
  have hnd : ((List.range N).filter p).Nodup := (List.nodup_range N).filter p
  have himem : i ∈ (List.range N).filter p :=
    List.mem_filter.mpr ⟨List.mem_range.mpr hi, hpi⟩
  have hjmem : j ∈ (List.range N).filter p :=
    List.mem_filter.mpr ⟨List.mem_range.mpr hj, hpj⟩
  have hsub : ({i, j} : Finset Nat) ⊆ ((List.range N).filter p).toFinset := by
    intro x hx
    rw [Finset.mem_insert, Finset.mem_singleton] at hx
    rw [List.mem_toFinset]
    rcases hx with rfl | rfl
    · exact himem
    · exact hjmem
  have := Finset.card_le_card hsub
  rw [Finset.card_pair hij, List.toFinset_card_of_nodup hnd] at this
  exact this

/-- The insert branch of `ensure_target_and_loader`: no preference line, no
loader occurrence, no leading doc-comment. -/
theorem ensure_insert_eq {t : Text} (hz : countOcc LOADER t = 0)
    (hpr : findPrefLine t = none) (hh : matchHeader t = none) :
    ensure_target_and_loader t =
      '\n' :: (joinNL [PRAGMA, LOADER, PREF_CANON] ++ '\n' :: t) := by
  simp only [ensure_target_and_loader]
  rw [stripLoaders_eq hz]
  cases hpl : findPragmaLine t with
  | none => simp [hpl, hpr, hh, joinNL]
  | some a => simp [hpl, hpr, hh, joinNL]

/-- The replace branch of `ensure_target_and_loader`: pragma and preference
lines both found after (identity) stripping. -/
theorem ensure_replace_eq {t : Text} {a b e : Nat} (hz : countOcc LOADER t = 0)
    (hp : findPragmaLine t = some a) (hq : findPrefLine t = some (b, e)) :
    ensure_target_and_loader t = t.take a ++ CANON_HDR ++ t.drop e := by
  simp only [ensure_target_and_loader]
  rw [stripLoaders_eq hz]
  simp [hp, hq]

theorem occ_lt_length {n h : Text} {i : Nat} (hn : n ≠ [])
    (hocc : n.isPrefixOf (h.drop i) = true) : i < h.length := by
  by_contra hge
  rw [List.drop_eq_nil_of_le (by omega), List.isPrefixOf_iff_prefix] at hocc
  exact hn (List.prefix_nil.mp hocc)

theorem drop_append_exact (x z : Text) (k : Nat) :
    (x ++ z).drop (x.length + k) = z.drop k := by
  rw [List.drop_append_eq_append_drop, List.drop_eq_nil_of_le (by omega)]
  simp

theorem getElem?_append_exact (x z : Text) (k : Nat) :
    (x ++ z)[x.length + k]? = z[k]? := by
  rw [List.getElem?_append_right (by omega)]
  congr 1
  omega

theorem take_getLast? {t : Text} {a : Nat} (h1 : 1 ≤ a) (h2 : a ≤ t.length) :
    (t.take a).getLast? = t[a-1]? := by
  rw [List.getLast?_eq_getElem?, List.length_take, List.getElem?_take]
  rw [if_pos (by omega)]
  congr 1
  omega

/-- A line-start boundary at the junction of an append whose left part ends
with a newline (or is empty). -/
theorem boundaryAt_append_exact {x : Text} (z : Text)
    (hb : x = [] ∨ x.getLast? = some '\n') :
    boundaryAt (x ++ z) x.length = true := by
  unfold boundaryAt
  rcases hb with rfl | hb
  · simp
  · rw [Bool.or_eq_true]
    right
    have hx : x ≠ [] := by rintro rfl; simp at hb
    have hlen : 1 ≤ x.length := by
      cases x
      · exact absurd rfl hx
      · simp
    rw [List.getElem?_append, if_pos (by omega), ← List.getLast?_eq_getElem?, hb]
    simp

/-- A pragma-line match at an explicitly laid-out pragma line. -/
theorem pragmaAt_exact {x : Text} (y : Text)
    (hb : x = [] ∨ x.getLast? = some '\n') :
    pragmaAt (x ++ (PRAGMA ++ '\n' :: y)) x.length = true := by
  unfold pragmaAt
  rw [Bool.and_eq_true, Bool.and_eq_true]
  refine ⟨⟨boundaryAt_append_exact _ hb, ?_⟩, ?_⟩
  · rw [List.drop_left, List.isPrefixOf_iff_prefix]
    exact ⟨'\n' :: y, rfl⟩
  · have hdrop : (x ++ (PRAGMA ++ '\n' :: y)).drop (x.length + PRAGMA.length) =
        '\n' :: y := by
      rw [drop_append_exact, List.drop_left]
    rw [hdrop]
    unfold pragmaTailOk
    rw [List.takeWhile_cons, if_pos (by decide)]
    simp [List.contains_cons]

/-- Pragma-line matches transfer across a prepended block that ends with a
newline. -/
theorem pragmaAt_shift {B t : Text} {i : Nat} (hB : B ≠ [])
    (hbl : B.getLast? = some '\n') :
    pragmaAt (B ++ t) (B.length + i) = pragmaAt t i := by
  have hBlen : 1 ≤ B.length := by
    cases B
    · exact absurd rfl hB
    · simp
  have e1 : boundaryAt (B ++ t) (B.length + i) = boundaryAt t i := by
    unfold boundaryAt
    cases i with
    | zero =>
      have hv : (B ++ t)[B.length + 0 - 1]? = some '\n' := by
        rw [Nat.add_zero, List.getElem?_append, if_pos (by omega),
          ← List.getLast?_eq_getElem?, hbl]
      simp only [Nat.add_zero] at hv ⊢
      simp [hv]
    | succ i =>
      have hv : (B ++ t)[B.length + (i + 1) - 1]? = t[i + 1 - 1]? := by
        have h1 : B.length + (i + 1) - 1 = B.length + i := by omega
        rw [h1, getElem?_append_exact, Nat.add_sub_cancel]
      rw [hv]
      have h0 : (B.length + (i + 1) == 0) = false := by
        rw [beq_eq_false_iff_ne]
        omega
      rw [h0]
      simp
  have hb2 : (B ++ t).drop (B.length + i + PRAGMA.length) =
      t.drop (i + PRAGMA.length) := by
    rw [Nat.add_assoc]
    exact drop_append_exact B t _
  unfold pragmaAt
  rw [e1, drop_append_exact B t i, hb2]

theorem eolSearch_ge {h : Text} {q r : Nat} (he : eolSearch h q = some r) : q ≤ r := by
  unfold eolSearch at he
  rw [Option.map_eq_some'] at he
  obtain ⟨t, _, rfl⟩ := he
  omega

theorem wsSemiWsEol_ge {h : Text} {p r : Nat} (he : wsSemiWsEol h p = some r) : p ≤ r := by
  unfold wsSemiWsEol at he
  obtain ⟨s1, _, hs1⟩ := List.exists_of_findSome?_eq_some he
  rw [Option.orElse_eq_some] at hs1
  rcases hs1 with hs1 | ⟨_, hs1⟩
  · split_ifs at hs1 with hc
    · have := eolSearch_ge hs1
      omega
  · have := eolSearch_ge hs1
    omega

theorem prefTail_ge {h : Text} {j r : Nat} (he : prefTail h j = some r) : j ≤ r := by
  unfold prefTail at he
  obtain ⟨k, _, hk⟩ := List.exists_of_findSome?_eq_some he
  split_ifs at hk with hc
  have := wsSemiWsEol_ge hk
  omega

theorem prefAt_ge {h : Text} {b e : Nat} (he : prefAt h b = some e) :
    b + PREF_KEY.length ≤ e := by
  unfold prefAt at he
  split_ifs at he with hc
  exact prefTail_ge he

theorem findPrefLine_some_elim {h : Text} {b e : Nat}
    (hf : findPrefLine h = some (b, e)) : prefAt h b = some e := by
  unfold findPrefLine at hf
  obtain ⟨i, _, hi⟩ := List.exists_of_findSome?_eq_some hf
  rw [Option.map_eq_some'] at hi
  obtain ⟨e', he', heq⟩ := hi
  obtain ⟨rfl, rfl⟩ : i = b ∧ e' = e := by
    constructor <;> [exact congrArg Prod.fst heq; exact congrArg Prod.snd heq]
  exact he'

theorem boundaryAt_elim {h : Text} {i : Nat} (hb : boundaryAt h i = true) :
    i = 0 ∨ h[i-1]? = some '\n' := by
  unfold boundaryAt at hb
  rw [Bool.or_eq_true, beq_iff_eq, beq_iff_eq] at hb
  exact hb

theorem pragmaAt_parts {h : Text} {i : Nat} (hp : pragmaAt h i = true) :
    boundaryAt h i = true ∧ PRAGMA.isPrefixOf (h.drop i) = true := by
  unfold pragmaAt at hp
  rw [Bool.and_eq_true, Bool.and_eq_true] at hp
  exact ⟨hp.1.1, hp.1.2⟩

theorem getElem?_of_drop {h : Text} {p : Nat} {c : Char} {z : Text}
    (hd : h.drop p = c :: z) : h[p]? = some c := by
  have hh := List.head?_drop h p
  rw [hd] at hh
  exact hh.symm

/-- `\s*$` succeeds whenever it starts just before a newline. -/
theorem eolSearch_at_nl {h : Text} {q : Nat} {y : Text}
    (hd : h.drop q = '\n' :: y) : (eolSearch h q).isSome = true := by
  unfold eolSearch
  rw [Option.isSome_map']
  rw [← Option.ne_none_iff_isSome, Ne, List.find?_eq_none]
  push_neg
  refine ⟨0, ?_, ?_⟩
  · rw [List.mem_reverse, List.mem_range]
    omega
  · unfold eolAt
    rw [Nat.add_zero, Bool.or_eq_true, beq_iff_eq, beq_iff_eq]
    right
    exact getElem?_of_drop hd

/-- `\s*;?\s*$` succeeds whenever it starts at `;` followed by a newline. -/
theorem wsSemiWsEol_semi_eol {h : Text} {p : Nat} {y : Text}
    (hd : h.drop p = ';' :: '\n' :: y) : (wsSemiWsEol h p).isSome = true := by
  unfold wsSemiWsEol
  rw [hd]
  have hrun : (';' :: '\n' :: y).takeWhile isSpaceB = [] := by
    rw [List.takeWhile_cons, if_neg (by decide)]
  rw [hrun]
  dsimp only
  have hrange : (List.range (List.length ([] : Text) + 1)).reverse = [0] := by decide
  rw [hrange, List.findSome?_cons]
  have hsc : (h[p+0]? == some ';') = true := by
    rw [Nat.add_zero, beq_iff_eq]
    exact getElem?_of_drop hd
  rw [if_pos hsc]
  have hdrop1 : h.drop (p + 0 + 1) = '\n' :: y := by
    rw [Nat.add_zero, ← List.drop_drop, hd]
    rfl
  have hes := eolSearch_at_nl hdrop1
  cases hesv : eolSearch h (p + 0 + 1) with
  | none => rw [hesv] at hes; exact absurd hes (by simp)
  | some v => simp

/-- A preference-line match at an explicitly laid-out canonical preference
line (whatever follows the line's newline). -/
theorem prefAt_exact {x : Text} (y : Text)
    (hb : x = [] ∨ x.getLast? = some '\n') :
    (prefAt (x ++ (PREF_CANON ++ '\n' :: y)) x.length).isSome = true := by
  have hsplit : PREF_CANON = PREF_KEY ++ " false);".toList := by decide
  unfold prefAt
  rw [if_pos ?hcond]
  case hcond =>
    rw [Bool.and_eq_true]
    refine ⟨boundaryAt_append_exact _ hb, ?_⟩
    rw [List.drop_left, List.isPrefixOf_iff_prefix, hsplit]
    exact ⟨" false);".toList ++ '\n' :: y, by simp⟩
  have hdrop : (x ++ (PREF_CANON ++ '\n' :: y)).drop (x.length + PREF_KEY.length) =
      " false);".toList ++ '\n' :: y := by
    rw [drop_append_exact, hsplit, List.append_assoc, List.drop_left]
  have hline : (" false);".toList ++ '\n' :: y).takeWhile (fun c => !(c == '\n')) =
      " false);".toList := by
    rw [List.takeWhile_append, if_pos (by decide)]
    rw [List.takeWhile_cons, if_neg (by decide)]
    simp
  unfold prefTail
  simp only [hdrop, hline]
  have hrange : (List.range (" false);".toList).length).reverse =
      [7, 6, 5, 4, 3, 2, 1, 0] := by decide
  rw [hrange, List.findSome?_cons]
  rw [if_neg (by decide : ¬((" false);".toList)[7]? == some ')') = true)]
  rw [List.findSome?_cons]
  rw [if_pos (by decide : ((" false);".toList)[6]? == some ')') = true)]
  have hsemi : (x ++ (PREF_CANON ++ '\n' :: y)).drop (x.length + PREF_KEY.length + 6 + 1) =
      ';' :: '\n' :: y := by
    have h1 : x.length + PREF_KEY.length + 6 + 1 = x.length + (PREF_KEY.length + 7) := by
      omega
    rw [h1, drop_append_exact]
    have h2 : PREF_KEY.length + 7 = PREF_CANON.length - 1 := by decide
    rw [h2, List.drop_append_eq_append_drop]
    rw [(by decide : PREF_CANON.drop (PREF_CANON.length - 1) = [';'])]
    rw [Nat.sub_eq_zero_of_le (by decide), List.drop_zero]
    rfl
  have hws := wsSemiWsEol_semi_eol hsemi
  cases hwsv : wsSemiWsEol (x ++ (PREF_CANON ++ '\n' :: y))
      (x.length + PREF_KEY.length + 6 + 1) with
  | none => rw [hwsv] at hws; exact absurd hws (by simp)
  | some v => simp

end NJX

namespace NJX

theorem find?_getD_singleton {α : Type} (p : α → Bool) (x : α) :
    ((List.find? p [x]).getD x) = x := by
  cases hp : p x <;> simp [List.find?_cons, hp]

theorem findIIFEsAux_mem {h : Text} :
    ∀ (fuel i : Nat) (x : Nat × Nat × Text), x ∈ findIIFEsAux h fuel i →
      matchIifeAt h x.1 = some (x.2.1, x.2.2) := by
  intro fuel
  induction fuel with
  | zero => intro i x hx; simp [findIIFEsAux] at hx
  | succ fuel ih =>
    intro i x hx
    simp only [findIIFEsAux] at hx
    split_ifs at hx with hlt
    · cases hm : matchIifeAt h i with
      | some v =>
        rw [hm] at hx
        rcases List.mem_cons.mp hx with rfl | hx'
        · simpa using hm
        · exact ih _ _ hx'
      | none =>
        rw [hm] at hx
        exact ih _ _ hx
    · simp at hx

theorem findIIFEs_singleton_match {t : Text} {s e : Nat} {body : Text}
    (h : findIIFEs t = [(s, e, body)]) : matchIifeAt t s = some (e, body) :=
  findIIFEsAux_mem _ _ (s, e, body) (by rw [findIIFEs] at h; rw [h]; exact List.mem_cons_self _ _)

/-- Structure of a wrapper match: the head literal occurs at the start, the
span is nonempty and lies inside the text. -/
theorem matchIifeAt_bounds {t : Text} {s e : Nat} {body : Text}
    (hm : matchIifeAt t s = some (e, body)) :
    FN_OPEN.isPrefixOf (t.drop s) = true ∧ s < e ∧ e ≤ t.length := by
  simp only [matchIifeAt] at hm
  split_ifs at hm with h1 h2
  rw [Option.map_eq_some'] at hm
  obtain ⟨m, hfind, heq⟩ := hm
  unfold firstOccFrom at hfind
  have hp := List.find?_some hfind
  rw [Bool.and_eq_true] at hp
  have hmge : s + 12 + wsLen (t.drop (s + 11)) ≤ m := by
    have := of_decide_eq_true hp.1
    omega
  have h5 : IIFE_CLOSE.length = 5 := by decide
  have hmlen : m + 5 ≤ t.length := by
    have hle := (List.isPrefixOf_iff_prefix.mp hp.2).length_le
    rw [List.length_drop, h5] at hle
    omega
  have he : e = m + 5 := (congrArg Prod.fst heq).symm
  exact ⟨h1, by omega, by omega⟩

/-- Reduction of `remove_wrapper_and_build_execute` when the text contains
exactly one wrapper match. -/
theorem remove_wrapper_single_fst {t : Text} {s e : Nat} {body : Text}
    (h : findIIFEs t = [(s, e, body)]) :
    (remove_wrapper_and_build_execute t).1 =
      rstrip (t.take s ++ t.drop e) ++ '\n' ::
        build_execute_block (guardCheckOf DOC_MARK body) (guardCheckOf SEL_MARK body)
          (extract_cfg_script_name (t.take s ++ t.drop e))
          (if searchValidate body then some body else none) := by
  unfold remove_wrapper_and_build_execute
  rw [h]
  simp only [find?_getD_singleton]

theorem extract_cfg_default {u : Text} (hz : countOcc SCRIPTNAME_KEY u = 0) :
    extract_cfg_script_name u = "Script error".toList := by
  unfold extract_cfg_script_name
  have hn : (List.range (u.length + 1)).findSome? (scriptNameAt u) = none := by
    rw [List.findSome?_eq_none_iff]
    intro i _
    unfold scriptNameAt
    rw [if_neg]
    intro hpf
    exact absurd hpf (by
      have := (countOcc_eq_zero_iff (by decide) (h := u)).mp hz i
      simpa using this)
  rw [hn]

theorem guardCheckOf_none {mark body : Text}
    (hg : ∀ g, findGuard mark body = some g → findAlertArg g = none) :
    guardCheckOf mark body = none := by
  unfold guardCheckOf
  cases hfg : findGuard mark body with
  | none => rfl
  | some g => rw [Option.some_bind, hg g hfg]; rfl

theorem matchIifeAt_none_of_no_fn {h : Text} (hz : countOcc FN_OPEN h = 0)
    (i : Nat) : matchIifeAt h i = none := by
  unfold matchIifeAt
  rw [if_neg]
  intro hpf
  exact absurd hpf (by
    have := (countOcc_eq_zero_iff (by decide) (h := h)).mp hz i
    simpa using this)

theorem findIIFEsAux_nil_of_no_fn {h : Text} (hz : countOcc FN_OPEN h = 0) :
    ∀ fuel i, findIIFEsAux h fuel i = [] := by
  intro fuel
  induction fuel with
  | zero => intro i; rfl
  | succ fuel ih =>
    intro i
    simp only [findIIFEsAux]
    rw [matchIifeAt_none_of_no_fn hz i]
    split_ifs with hlt
    · exact ih (i + 1)
    · rfl

theorem findIIFEs_nil_of_no_fn {h : Text} (hz : countOcc FN_OPEN h = 0) :
    findIIFEs h = [] :=
  findIIFEsAux_nil_of_no_fn hz _ 0

theorem countOcc_self_pos {n : Text} (hn : n ≠ []) : 1 ≤ countOcc n n :=
  occ_le_countOcc hn (i := 0)
    (by rw [List.drop_zero, List.isPrefixOf_iff_prefix])

theorem countOcc_pos_append_right {n b : Text} (h1 : 1 ≤ countOcc n b)
    (a : Text) : 1 ≤ countOcc n (a ++ b) :=
  le_trans h1 (countOcc_le_append_right n a b)

theorem countOcc_pos_cons {n t : Text} (c : Char) (h1 : 1 ≤ countOcc n t) :
    1 ≤ countOcc n (c :: t) := by
  rw [countOcc_cons]
  omega

theorem prefix_append_iff_of_le {x a b : Text} (hle : x.length ≤ a.length) :
    x <+: a ++ b ↔ x <+: a := by
  constructor
  · intro hx
    exact List.prefix_of_prefix_length_le hx (List.prefix_append a b) hle
  · intro hx
    exact hx.trans (List.prefix_append a b)

theorem findSome?_append_or {β : Type} (f : α → Option β) (l1 l2 : List α) :
    List.findSome? f (l1 ++ l2) = (List.findSome? f l1).or (List.findSome? f l2) := by
  induction l1 with
  | nil => simp
  | cons a as ih =>
    rw [List.cons_append, List.findSome?_cons, List.findSome?_cons]
    cases f a <;> simp [ih]

/-- The ascending scan of `re.search`: if everything before `i0` fails and
`i0` matches, the leftmost match is at `i0`. -/
theorem findSome?_range_first {β : Type} {f : Nat → Option β} {N i0 : Nat} {v : β}
    (hi0 : i0 < N) (hnone : ∀ i < i0, f i = none) (hsome : f i0 = some v) :
    (List.range N).findSome? f = some v := by
  obtain ⟨d, rfl⟩ : ∃ d, N = i0 + (d + 1) := ⟨N - i0 - 1, by omega⟩
  rw [List.range_add, findSome?_append_or]
  have h1 : List.findSome? f (List.range i0) = none := by
    rw [List.findSome?_eq_none_iff]
    intro x hx
    exact hnone x (List.mem_range.mp hx)
  rw [h1, List.findSome?_map, List.range_succ_eq_map, List.findSome?_cons]
  have h2 : (f ∘ fun x => i0 + x) 0 = some v := by
    simpa using hsome
  rw [h2]
  rfl

theorem find?_range_first {p : Nat → Bool} {N m0 : Nat} (hm0 : m0 < N)
    (hbefore : ∀ m < m0, p m = false) (hp : p m0 = true) :
    (List.range N).find? p = some m0 := by
  obtain ⟨d, rfl⟩ : ∃ d, N = m0 + (d + 1) := ⟨N - m0 - 1, by omega⟩
  rw [List.range_add, List.find?_append]
  have h1 : List.find? p (List.range m0) = none := by
    rw [List.find?_eq_none]
    intro x hx
    rw [hbefore x (List.mem_range.mp hx)]
    exact Bool.false_ne_true
  rw [h1]
  have hm : p (m0 + 0) = true := by
    rw [Nat.add_zero]
    exact hp
  have h2 : List.find? p (List.map (fun x => m0 + x) (List.range (d + 1))) =
      some (m0 + 0) := by
    rw [List.range_succ_eq_map, List.map_cons, List.find?_cons, hm]
  rw [h2]
  simp

theorem sn_prefix_before_false {pre rest : Text}
    (hzpre : countOcc SCRIPTNAME_KEY pre = 0) {i : Nat} (hi : i < pre.length) :
    SCRIPTNAME_KEY.isPrefixOf ((pre ++ (SCRIPTNAME_KEY ++ rest)).drop i) = false := by
  have hsn10 : SCRIPTNAME_KEY.length = 10 := by decide
  rw [Bool.eq_false_iff]
  intro hpf
  rw [List.isPrefixOf_iff_prefix] at hpf
  have hdrop : (pre ++ (SCRIPTNAME_KEY ++ rest)).drop i =
      pre.drop i ++ (SCRIPTNAME_KEY ++ rest) := by
    rw [List.drop_append_eq_append_drop, Nat.sub_eq_zero_of_le (by omega),
      List.drop_zero]
  rw [hdrop] at hpf
  have hplen : (pre.drop i).length = pre.length - i := List.length_drop i pre
  by_cases hk : 10 ≤ pre.length - i
  · have hin : SCRIPTNAME_KEY <+: pre.drop i :=
      (prefix_append_iff_of_le (by omega)).mp hpf
    have hocc : SCRIPTNAME_KEY.isPrefixOf (pre.drop i) = true :=
      List.isPrefixOf_iff_prefix.mpr hin
    have := occ_le_countOcc (by decide) hocc
    omega
  · set k := pre.length - i with hkdef
    have hk1 : 1 ≤ k := by omega
    have hk9 : k < 10 := by omega
    obtain ⟨r, hr⟩ := hpf
    have hkle : k ≤ SCRIPTNAME_KEY.length := by omega
    have h1 : (SCRIPTNAME_KEY ++ r).drop k = SCRIPTNAME_KEY.drop k ++ r := by
      rw [List.drop_append_eq_append_drop, Nat.sub_eq_zero_of_le hkle,
        List.drop_zero]
    have h2 : (pre.drop i ++ (SCRIPTNAME_KEY ++ rest)).drop k =
        SCRIPTNAME_KEY ++ rest := by
      rw [← hplen, List.drop_left]
    have hdk : SCRIPTNAME_KEY.drop k ++ r = SCRIPTNAME_KEY ++ rest := by
      rw [← h1, hr, h2]
    have hdp : (SCRIPTNAME_KEY.drop k) <+: SCRIPTNAME_KEY := by
      refine (prefix_append_iff_of_le ?_).mp ⟨r, hdk⟩
      rw [List.length_drop]
      omega
    have hnp : ∀ j, j < 10 → 0 < j →
        (SCRIPTNAME_KEY.drop j).isPrefixOf SCRIPTNAME_KEY = false := by decide
    have hcon := hnp k hk9 hk1
    rw [Bool.eq_false_iff] at hcon
    exact hcon (List.isPrefixOf_iff_prefix.mpr hdp)

/-- `scriptNameAt` succeeds at the key position of a canonical
`scriptName: <quote>name<quote>` field, yielding the quoted name. -/
theorem scriptNameAt_template_at (pre name post : Text) (q : Char)
    (hqq : q = '\'' ∨ q = '"')
    (hname : ∀ c ∈ name, c ≠ q ∧ c ≠ '\n') :
    scriptNameAt (pre ++ (SCRIPTNAME_KEY ++ ':' :: ' ' :: q :: (name ++ q :: post)))
      pre.length = some name := by
  have hqns : isSpaceB q = false := by
    rcases hqq with rfl | rfl <;> rfl
  set t := pre ++ (SCRIPTNAME_KEY ++ ':' :: ' ' :: q :: (name ++ q :: post))
    with htdef
  have e0 : t.drop pre.length =
      SCRIPTNAME_KEY ++ ':' :: ' ' :: q :: (name ++ q :: post) := by
    rw [htdef]
    exact List.drop_left pre _
  have e1 : t.drop (pre.length + SCRIPTNAME_KEY.length) =
      ':' :: ' ' :: q :: (name ++ q :: post) := by
    have h := congrArg (List.drop SCRIPTNAME_KEY.length) e0
    rw [List.drop_drop, List.drop_left] at h
    exact h
  have e3 : t.drop (pre.length + SCRIPTNAME_KEY.length + 1) =
      ' ' :: q :: (name ++ q :: post) := by
    have h := congrArg (List.drop 1) e1
    rw [List.drop_drop] at h
    exact h
  have e3b : t.drop (pre.length + SCRIPTNAME_KEY.length + 1 + 1) =
      q :: (name ++ q :: post) := by
    have h := congrArg (List.drop 1) e3
    rw [List.drop_drop] at h
    exact h
  have e5 : t.drop (pre.length + SCRIPTNAME_KEY.length + 1 + 1 + 1) =
      name ++ q :: post := by
    have h := congrArg (List.drop 1) e3b
    rw [List.drop_drop] at h
    exact h
  have e4 : t[pre.length + SCRIPTNAME_KEY.length + 1 + 1]? = some q :=
    getElem?_of_drop e3b
  have e6 : t[pre.length + SCRIPTNAME_KEY.length + 1 + 1 + 1 + name.length]? =
      some q := by
    have h := List.getElem?_drop t
      (pre.length + SCRIPTNAME_KEY.length + 1 + 1 + 1) name.length
    rw [e5, List.getElem?_append, if_neg (lt_irrefl _), Nat.sub_self,
      List.getElem?_cons_zero] at h
    exact h.symm
  have hw1 : wsLen (t.drop (pre.length + SCRIPTNAME_KEY.length)) = 0 := by
    rw [e1]
    rfl
  have hw2 : wsLen (t.drop (pre.length + SCRIPTNAME_KEY.length + 1)) = 1 := by
    rw [e3]
    unfold wsLen
    rw [List.takeWhile_cons, if_pos (by rfl), List.takeWhile_cons,
      if_neg (by rw [hqns]; exact Bool.false_ne_true)]
    rfl
  have hsnT : SCRIPTNAME_KEY.isPrefixOf (t.drop pre.length) = true := by
    rw [e0, List.isPrefixOf_iff_prefix]
    exact List.prefix_append _ _
  have hcolon : (t[pre.length + SCRIPTNAME_KEY.length]? == some ':') = true := by
    rw [getElem?_of_drop e1]
    rfl
  have hqb : (q == '\'' || q == '"') = true := by
    rcases hqq with rfl | rfl <;> rfl
  have htN : pre.length + SCRIPTNAME_KEY.length + 1 + 1 + 1 + name.length <
      t.length + 1 := by
    rw [htdef]
    simp only [List.length_append, List.length_cons]
    omega
  have hbefore : ∀ m,
      m < pre.length + SCRIPTNAME_KEY.length + 1 + 1 + 1 + name.length →
      (decide (pre.length + SCRIPTNAME_KEY.length + 1 + 1 + 1 ≤ m) &&
        (t[m]? == some q || t[m]? == some '\n')) = false := by
    intro m hm
    by_cases hvm : pre.length + SCRIPTNAME_KEY.length + 1 + 1 + 1 ≤ m
    · have hd : m - (pre.length + SCRIPTNAME_KEY.length + 1 + 1 + 1) <
          name.length := by omega
      have h1 : (t.drop (pre.length + SCRIPTNAME_KEY.length + 1 + 1 + 1))[
          m - (pre.length + SCRIPTNAME_KEY.length + 1 + 1 + 1)]? = t[m]? := by
        rw [List.getElem?_drop, Nat.add_sub_cancel' hvm]
      rw [e5, List.getElem?_append, if_pos hd,
        List.getElem?_eq_getElem hd] at h1
      obtain ⟨hcq, hcn⟩ := hname _ (List.getElem_mem hd)
      rw [← h1]
      have hb1 : (some (name[m - (pre.length + SCRIPTNAME_KEY.length + 1 + 1 + 1)])
          == some q) = false := by
        rw [beq_eq_false_iff_ne]
        simp only [ne_eq, Option.some.injEq]
        exact hcq
      have hb2 : (some (name[m - (pre.length + SCRIPTNAME_KEY.length + 1 + 1 + 1)])
          == some '\n') = false := by
        rw [beq_eq_false_iff_ne]
        simp only [ne_eq, Option.some.injEq]
        exact hcn
      rw [hb1, hb2]
      simp
    · rw [decide_eq_false hvm, Bool.false_and]
  have hp : (decide (pre.length + SCRIPTNAME_KEY.length + 1 + 1 + 1 ≤
      pre.length + SCRIPTNAME_KEY.length + 1 + 1 + 1 + name.length) &&
      (t[pre.length + SCRIPTNAME_KEY.length + 1 + 1 + 1 + name.length]? ==
          some q ||
        t[pre.length + SCRIPTNAME_KEY.length + 1 + 1 + 1 + name.length]? ==
          some '\n')) = true := by
    rw [e6, decide_eq_true (Nat.le_add_right _ _)]
    simp
  have hfind : (List.range (t.length + 1)).find? (fun m =>
      decide (pre.length + SCRIPTNAME_KEY.length + 1 + 1 + 1 ≤ m) &&
        (t[m]? == some q || t[m]? == some '\n')) =
      some (pre.length + SCRIPTNAME_KEY.length + 1 + 1 + 1 + name.length) :=
    find?_range_first htN hbefore hp
  have hsub : pre.length + SCRIPTNAME_KEY.length + 1 + 1 + 1 + name.length -
      (pre.length + SCRIPTNAME_KEY.length + 1 + 1 + 1) = name.length := by
    omega
  simp only [scriptNameAt, skipWsFrom, charAt]
  simp only [hw1, Nat.add_zero, hw2]
  simp [hsnT, hcolon, e4, hqb, hfind, Option.some_bind, e6, hsub, e5,
    List.take_left]

/-- Before the first `scriptName` key, `scriptNameAt` fails. -/
theorem scriptNameAt_none_before {pre rest : Text}
    (hzpre : countOcc SCRIPTNAME_KEY pre = 0) {i : Nat} (hi : i < pre.length) :
    scriptNameAt (pre ++ (SCRIPTNAME_KEY ++ rest)) i = none := by
  have h := @sn_prefix_before_false pre rest hzpre i hi
  simp [scriptNameAt, h]

/-- `extract_cfg_script_name` on a text whose first `scriptName` key heads a
canonical quoted field: the declared name suffixed with space-`error`. -/
theorem extract_cfg_template (pre name post : Text) (q : Char)
    (hqq : q = '\'' ∨ q = '"')
    (hzpre : countOcc SCRIPTNAME_KEY pre = 0)
    (hname : ∀ c ∈ name, c ≠ q ∧ c ≠ '\n') :
    extract_cfg_script_name
      (pre ++ (SCRIPTNAME_KEY ++ ':' :: ' ' :: q :: (name ++ q :: post))) =
      name ++ " error".toList := by
  have hN : pre.length < (pre ++ (SCRIPTNAME_KEY ++ ':' :: ' ' :: q ::
      (name ++ q :: post))).length + 1 := by
    rw [List.length_append]
    omega
  have hfs : (List.range ((pre ++ (SCRIPTNAME_KEY ++ ':' :: ' ' :: q ::
      (name ++ q :: post))).length + 1)).findSome?
      (scriptNameAt (pre ++ (SCRIPTNAME_KEY ++ ':' :: ' ' :: q ::
        (name ++ q :: post)))) = some name :=
    findSome?_range_first hN
      (fun i hi => scriptNameAt_none_before hzpre hi)
      (scriptNameAt_template_at pre name post q hqq hname)
  unfold extract_cfg_script_name
  rw [hfs]

theorem joinNL_cons_cons (a b : Text) (l : List Text) :
    joinNL (a :: b :: l) = a ++ '\n' :: joinNL (b :: l) := rfl

theorem countOcc_joinNL_of_mem {n x : Text} {ls : List Text} (hx : x ∈ ls)
    (hocc : 1 ≤ countOcc n x) : 1 ≤ countOcc n (joinNL ls) := by
  induction ls with
  | nil => simp at hx
  | cons y ys ih =>
    rcases List.mem_cons.mp hx with rfl | hx'
    · cases ys with
      | nil => exact hocc
      | cons z zs =>
        rw [joinNL_cons_cons]
        exact le_trans hocc (countOcc_le_append_left _ _ _)
    · cases ys with
      | nil => simp at hx'
      | cons z zs =>
        rw [joinNL_cons_cons]
        exact countOcc_pos_append_right (countOcc_pos_cons _ (ih hx')) y

/-- Every branch of `build_execute_block` carries an
`AIS.Error.show('<title>', e);` call with the given error title. -/
theorem countOcc_show_build (dc sc vb : Option Text) (title : Text) :
    1 ≤ countOcc ("AIS.Error.show('".toList ++ (title ++ "', e);".toList))
      (build_execute_block dc sc title vb) := by
  have hN : ("AIS.Error.show('".toList ++ (title ++ "', e);".toList)) ≠
      ([] : Text) := by simp
  have hpos8 : 1 ≤ countOcc
      ("AIS.Error.show('".toList ++ (title ++ "', e);".toList))
      ("        AIS.Error.show('".toList ++ (title ++ "', e);".toList)) := by
    rw [(by decide : ("        AIS.Error.show('".toList : Text) =
      "        ".toList ++ "AIS.Error.show('".toList), List.append_assoc]
    exact countOcc_pos_append_right (countOcc_self_pos hN) _
  have hpos4 : 1 ≤ countOcc
      ("AIS.Error.show('".toList ++ (title ++ "', e);".toList))
      ("    AIS.Error.show('".toList ++ (title ++ "', e);".toList)) := by
    rw [(by decide : ("    AIS.Error.show('".toList : Text) =
      "    ".toList ++ "AIS.Error.show('".toList), List.append_assoc]
    exact countOcc_pos_append_right (countOcc_self_pos hN) _
  have hmemGT : ("        AIS.Error.show('".toList ++ (title ++ "', e);".toList))
      ∈ guardTail title := by
    unfold guardTail
    exact List.mem_cons_of_mem _ (List.mem_cons_of_mem _
      (List.mem_cons_of_mem _ (List.mem_cons_self _ _)))
  unfold build_execute_block
  cases vb with
  | some vb0 =>
    dsimp only
    refine le_trans ?_ (countOcc_le_append_left _ _ _)
    exact countOcc_joinNL_of_mem (List.mem_append_right _ hmemGT) hpos8
  | none =>
    cases dc with
    | some dc0 =>
      cases sc with
      | some sc0 =>
        refine le_trans ?_ (countOcc_le_append_left _ _ _)
        exact countOcc_joinNL_of_mem (List.mem_append_right _ hmemGT) hpos8
      | none =>
        refine le_trans ?_ (countOcc_le_append_left _ _ _)
        exact countOcc_joinNL_of_mem (List.mem_append_right _ hmemGT) hpos8
    | none =>
      cases sc with
      | some sc0 =>
        refine le_trans ?_ (countOcc_le_append_left _ _ _)
        exact countOcc_joinNL_of_mem (List.mem_append_right _ hmemGT) hpos8
      | none =>
        refine le_trans ?_ (countOcc_le_append_left _ _ _)
        refine countOcc_joinNL_of_mem (List.mem_append_right _ ?_) hpos4
        exact List.mem_cons_of_mem _ (List.mem_cons_of_mem _
          (List.mem_cons_of_mem _ (List.mem_cons_self _ _)))

end NJX

-- ===========================================================================
-- Claims
-- ===========================================================================

namespace NJX

/-- C9: for every text whose single wrapper body contains no
validation-routine call and whose inline document-presence and
selection-presence conditional blocks do not themselves contain an alert
call, extraction treats those guards as absent (`doc_check` and
`sel_check` are both `none`), and — when no `scriptName` field remains —
the synthesized execute block appended at the end is exactly the bare
no-guard form calling `main` inside `try/catch`. -/
theorem claim9_guard_without_alert_absent {t : Text} {s e : Nat} {body : Text}
    (h : findIIFEs t = [(s, e, body)])
    (hv : searchValidate body = false)
    (hdoc : ∀ g, findGuard DOC_MARK body = some g → findAlertArg g = none)
    (hsel : ∀ g, findGuard SEL_MARK body = some g → findAlertArg g = none)
    (hsn : countOcc SCRIPTNAME_KEY (t.take s ++ t.drop e) = 0) :
    guardCheckOf DOC_MARK body = none ∧
    guardCheckOf SEL_MARK body = none ∧
    (remove_wrapper_and_build_execute t).1 =
      rstrip (t.take s ++ t.drop e) ++ '\n' ::
        ("\n// ".toList ++ List.replicate 76 '=' ++ "\n// EXECUTE\n// ".toList ++ List.replicate 76 '=' ++ "\n\ntry \x7b\n    main();\n\x7d catch (e) \x7b\n    AIS.Error.show('Script error', e);\n\x7d\n".toList) := by
  have hd := guardCheckOf_none hdoc
  have hs := guardCheckOf_none hsel
  refine ⟨hd, hs, ?_⟩
  rw [remove_wrapper_single_fst h, hd, hs, hv, extract_cfg_default hsn]
  rw [if_neg (by simp)]
  congr 1

/-- C9 (witness): the theorem applied to a wrapper whose document guard
contains only `return;` and no alert. -/
theorem claim9_guard_without_alert_absent_witness :
    findIIFEs ("(function()\x7bif(!AIS.Document.hasDocument())\x7breturn;\x7dmain();\x7d)();".toList) =
      [(0, 64, "if(!AIS.Document.hasDocument())\x7breturn;\x7dmain();".toList)] ∧
    searchValidate ("if(!AIS.Document.hasDocument())\x7breturn;\x7dmain();".toList) = false ∧
    guardCheckOf DOC_MARK ("if(!AIS.Document.hasDocument())\x7breturn;\x7dmain();".toList) = none := by
  refine ⟨by decide, by decide, ?_⟩
  refine (@claim9_guard_without_alert_absent
    ("(function()\x7bif(!AIS.Document.hasDocument())\x7breturn;\x7dmain();\x7d)();".toList)
    0 64
    ("if(!AIS.Document.hasDocument())\x7breturn;\x7dmain();".toList)
    (by decide) (by decide) ?_ ?_ (by decide)).1
  · intro g hg
    rw [(by decide : findGuard DOC_MARK ("if(!AIS.Document.hasDocument())\x7breturn;\x7dmain();".toList) =
      some ("return;".toList))] at hg
    injection hg with hg2
    subst hg2
    decide
  · intro g hg
    rw [(by decide : findGuard SEL_MARK ("if(!AIS.Document.hasDocument())\x7breturn;\x7dmain();".toList) =
      (none : Option Text))] at hg
    exact absurd hg (by simp)

/-- C5 (counterexample): the claim as stated is false.  For an input with
two wrappers that both call `main`, only the first is removed: a
self-invoking wrapper whose body calls the main routine remains in the
output. -/
theorem claim5_cx :
    (findIIFEs (remove_wrapper_and_build_execute
        ("(function()\x7bmain();\x7d)();\n(function()\x7bmain();\x7d)();".toList)).1).length = 1 ∧
    ((findIIFEs (remove_wrapper_and_build_execute
        ("(function()\x7bmain();\x7d)();\n(function()\x7bmain();\x7d)();".toList)).1).all
      (fun m => searchMainCall m.2.2)) = true := by
  refine ⟨by decide, by decide⟩

/-- C5 (amended): for every input text containing exactly one self-invoking
wrapper occurrence, beginning at a line start, whose body triggers no guard
extraction and with no `scriptName` field and no pre-existing execute
banner: after wrapper extraction and execute-block synthesis no
self-invoking wrapper remains in the text, and exactly one canonical
execute banner exists, in the execute block appended at the end of the
file. -/
theorem claim5_wrapper_removed {t : Text} {s e : Nat} {body : Text}
    (h : findIIFEs t = [(s, e, body)])
    (hb : s = 0 ∨ t[s-1]? = some '\n')
    (hfn : countOcc FN_OPEN t = 1)
    (hv : searchValidate body = false)
    (hdoc : guardCheckOf DOC_MARK body = none)
    (hsel : guardCheckOf SEL_MARK body = none)
    (hsn : countOcc SCRIPTNAME_KEY t = 0)
    (hban : countOcc BANNER t = 0) :
    findIIFEs (remove_wrapper_and_build_execute t).1 = [] ∧
    countOcc BANNER (remove_wrapper_and_build_execute t).1 = 1 ∧
    (remove_wrapper_and_build_execute t).1 =
      rstrip (t.take s ++ t.drop e) ++ '\n' ::
        ("\n// ".toList ++ List.replicate 76 '=' ++ "\n// EXECUTE\n// ".toList ++ List.replicate 76 '=' ++ "\n\ntry \x7b\n    main();\n\x7d catch (e) \x7b\n    AIS.Error.show('Script error', e);\n\x7d\n".toList) := by
  have hm := findIIFEs_singleton_match h
  have hbd := matchIifeAt_bounds hm
  have hfnp : FN_OPEN.isPrefixOf (t.drop s) = true := hbd.1
  have hslt : s < t.length := occ_lt_length (by decide) hfnp
  have hse : s < e := hbd.2.1
  have hA : t.take s = [] ∨ (t.take s).getLast? = some '\n' := by
    by_cases hs0 : s = 0
    · left
      rw [hs0]
      rfl
    · right
      rcases hb with h0 | hnl
      · exact absurd h0 hs0
      · rw [take_getLast? (by omega) hslt.le]
        exact hnl
  have pieceZero : ∀ n : Text, n ≠ [] → (∀ c ∈ n, c ≠ '\n') →
      countOcc n t = 0 → countOcc n (t.take s ++ t.drop e) = 0 := by
    intro n hn hnl hz
    rw [countOcc_append_nlLeft hnl hA]
    have h1 : countOcc n (t.take s) ≤ countOcc n t :=
      countOcc_le_of_isPrefix (List.take_prefix s t)
    have h2 : countOcc n (t.drop e) ≤ countOcc n t := by
      have := countOcc_le_append_right n (t.take e) (t.drop e)
      rw [List.take_append_drop] at this
      exact this
    omega
  have hsn2 : countOcc SCRIPTNAME_KEY (t.take s ++ t.drop e) = 0 :=
    pieceZero _ (by decide) (by decide) hsn
  have hban2 : countOcc BANNER (t.take s ++ t.drop e) = 0 :=
    pieceZero _ (by decide) (by decide) hban
  have hout : (remove_wrapper_and_build_execute t).1 =
      rstrip (t.take s ++ t.drop e) ++ '\n' ::
        ("\n// ".toList ++ List.replicate 76 '=' ++ "\n// EXECUTE\n// ".toList ++ List.replicate 76 '=' ++ "\n\ntry \x7b\n    main();\n\x7d catch (e) \x7b\n    AIS.Error.show('Script error', e);\n\x7d\n".toList) := by
    rw [remove_wrapper_single_fst h, hdoc, hsel, hv, extract_cfg_default hsn2]
    rw [if_neg (by simp)]
    congr 1
  have hfnA : countOcc FN_OPEN (t.take s) = 0 :=
    countOcc_take_eq_zero (by decide) hfn hfnp le_rfl
  have hfnB : countOcc FN_OPEN (t.drop e) = 0 :=
    countOcc_drop_eq_zero (by decide) hfn hfnp hse
  have hfn2 : countOcc FN_OPEN (t.take s ++ t.drop e) = 0 := by
    rw [countOcc_append_nlLeft (by decide) hA]
    omega
  have hstripFn : countOcc FN_OPEN (rstrip (t.take s ++ t.drop e)) = 0 := by
    have := countOcc_le_of_isPrefix (n := FN_OPEN) (rstrip_isPrefix (t.take s ++ t.drop e))
    omega
  have hstripBan : countOcc BANNER (rstrip (t.take s ++ t.drop e)) = 0 := by
    have := countOcc_le_of_isPrefix (n := BANNER) (rstrip_isPrefix (t.take s ++ t.drop e))
    omega
  refine ⟨?_, ?_, hout⟩
  · apply findIIFEs_nil_of_no_fn
    rw [hout, countOcc_append_nlRight (by decide)]
    have : countOcc FN_OPEN ('\n' :: ("\n// ".toList ++ List.replicate 76 '=' ++ "\n// EXECUTE\n// ".toList ++ List.replicate 76 '=' ++ "\n\ntry \x7b\n    main();\n\x7d catch (e) \x7b\n    AIS.Error.show('Script error', e);\n\x7d\n".toList)) = 0 := by decide
    omega
  · rw [hout, countOcc_append_nlRight (by decide)]
    have : countOcc BANNER ('\n' :: ("\n// ".toList ++ List.replicate 76 '=' ++ "\n// EXECUTE\n// ".toList ++ List.replicate 76 '=' ++ "\n\ntry \x7b\n    main();\n\x7d catch (e) \x7b\n    AIS.Error.show('Script error', e);\n\x7d\n".toList)) = 1 := by decide
    omega

/-- C5 (witness): the amended theorem applied to the single bare wrapper
`(function(){main();})();`. -/
theorem claim5_wrapper_removed_witness :
    findIIFEs ("(function()\x7bmain();\x7d)();".toList) =
      [(0, 24, "main();".toList)] ∧
    countOcc FN_OPEN ("(function()\x7bmain();\x7d)();".toList) = 1 ∧
    findIIFEs (remove_wrapper_and_build_execute
      ("(function()\x7bmain();\x7d)();".toList)).1 = [] ∧
    countOcc BANNER (remove_wrapper_and_build_execute
      ("(function()\x7bmain();\x7d)();".toList)).1 = 1 := by
  refine ⟨by decide, by decide, ?_, ?_⟩
  · exact (@claim5_wrapper_removed ("(function()\x7bmain();\x7d)();".toList)
      0 24 ("main();".toList) (by decide) (Or.inl rfl)
      (by decide) (by decide) (by decide) (by decide) (by decide) (by decide)).1
  · exact (@claim5_wrapper_removed ("(function()\x7bmain();\x7d)();".toList)
      0 24 ("main();".toList) (by decide) (Or.inl rfl)
      (by decide) (by decide) (by decide) (by decide) (by decide) (by decide)).2.1

/-- C6 (counterexample): the claim as stated is false.  For a wrapper whose
selection guard alerts with the literal `"a); b"`, the lazy alert pattern
stops at the first `);`, so the synthesized execute block carries the
mangled `alert("a);` and the exact original literal appears nowhere in the
output, although the input's guard carried it. -/
theorem claim6_cx :
    countOcc ("alert(\"a); b\");".toList)
      ("(function()\x7bif(!AIS.Document.hasSelection())\x7balert(\"a); b\");return;\x7dmain();\x7d)();".toList) = 1 ∧
    countOcc ("alert(\"a); b\");".toList)
      (remove_wrapper_and_build_execute
        ("(function()\x7bif(!AIS.Document.hasSelection())\x7balert(\"a); b\");return;\x7dmain();\x7d)();".toList)).1 = 0 ∧
    1 ≤ countOcc ("alert(\"a);".toList)
      (remove_wrapper_and_build_execute
        ("(function()\x7bif(!AIS.Document.hasSelection())\x7balert(\"a); b\");return;\x7dmain();\x7d)();".toList)).1 := by
  refine ⟨by decide, by decide, by decide⟩

/-- C6 (amended): for every input whose single wrapper body carries a
selection guard alerting with a literal message that survives extraction
unchanged — the extracted argument is whitespace-trimmed and the rebuilt
alert statement is unaffected by return-stripping (in particular the
literal contains no early `);` stop and no `return ;` pattern) — the
synthesized execute block's selection branch carries that exact literal:
`alert(<literal>);` occurs verbatim in the output. -/
theorem claim6_message_preserved {t : Text} {s e : Nat} {body g msg : Text}
    (h : findIIFEs t = [(s, e, body)])
    (hv : searchValidate body = false)
    (hg : findGuard SEL_MARK body = some g)
    (ha : findAlertArg g = some msg)
    (htrim : pstrip msg = msg)
    (hret : strip_returns ("alert(".toList ++ msg ++ ");".toList) =
      "alert(".toList ++ msg ++ ");".toList) :
    1 ≤ countOcc ("alert(".toList ++ msg ++ ");".toList)
        (remove_wrapper_and_build_execute t).1 := by
  have hSCne : ("alert(".toList ++ msg ++ ");".toList) ≠ [] := by simp
  have hsel : guardCheckOf SEL_MARK body = some ("alert(".toList ++ msg ++ ");".toList) := by
    unfold guardCheckOf
    rw [hg, Option.some_bind, ha, Option.map_some', htrim, hret]
  rw [remove_wrapper_single_fst h, hv]
  rw [if_neg (by simp), hsel]
  apply countOcc_pos_append_right
  apply countOcc_pos_cons
  have hIn : 1 ≤ countOcc ("alert(".toList ++ msg ++ ");".toList)
      ("    ".toList ++ ("alert(".toList ++ msg ++ ");".toList)) :=
    countOcc_pos_append_right (countOcc_self_pos hSCne) _
  cases hdc : guardCheckOf DOC_MARK body with
  | some dc =>
    simp only [build_execute_block]
    refine le_trans (countOcc_joinNL_of_mem ?_ hIn) (countOcc_le_append_left _ _ _)
    simp [bannerLines, guardTail]
  | none =>
    simp only [build_execute_block]
    refine le_trans (countOcc_joinNL_of_mem ?_ hIn) (countOcc_le_append_left _ _ _)
    simp [bannerLines, guardTail]

/-- C6 (witness): the amended theorem applied to a wrapper whose selection
guard alerts with the clean literal `"Pick one."`. -/
theorem claim6_message_preserved_witness :
    findGuard SEL_MARK
      ("if(!AIS.Document.hasSelection())\x7balert(\"Pick one.\");return;\x7dmain();".toList) =
      some ("alert(\"Pick one.\");return;".toList) ∧
    findAlertArg ("alert(\"Pick one.\");return;".toList) = some ("\"Pick one.\"".toList) ∧
    1 ≤ countOcc ("alert(".toList ++ "\"Pick one.\"".toList ++ ");".toList)
      (remove_wrapper_and_build_execute
        ("(function()\x7bif(!AIS.Document.hasSelection())\x7balert(\"Pick one.\");return;\x7dmain();\x7d)();".toList)).1 := by
  refine ⟨by decide, by decide, ?_⟩
  exact @claim6_message_preserved
    ("(function()\x7bif(!AIS.Document.hasSelection())\x7balert(\"Pick one.\");return;\x7dmain();\x7d)();".toList)
    0 84
    ("if(!AIS.Document.hasSelection())\x7balert(\"Pick one.\");return;\x7dmain();".toList)
    ("alert(\"Pick one.\");return;".toList)
    ("\"Pick one.\"".toList)
    (by decide) (by decide) (by decide) (by decide) (by decide) (by decide)

/-- C7 (counterexample): the claim as stated is false.  The error title is
not the declared name: for a configuration declaring `scriptName: 'Foo'`,
the synthesized execute block reports with title `Foo error`, not `Foo`. -/
theorem claim7_cx :
    countOcc ("AIS.Error.show('Foo', e);".toList)
      (remove_wrapper_and_build_execute
        ("var CFG = \x7b scriptName: 'Foo' \x7d;\n(function()\x7bmain();\x7d)();".toList)).1 = 0 ∧
    countOcc ("AIS.Error.show('Foo error', e);".toList)
      (remove_wrapper_and_build_execute
        ("var CFG = \x7b scriptName: 'Foo' \x7d;\n(function()\x7bmain();\x7d)();".toList)).1 = 1 := by
  decide

/-- C7 (corrected): the error title of the synthesized execute block is the
declared `scriptName` value suffixed with `" error"` (not the bare declared
name) when a canonical quoted field is present with no earlier key
occurrence, and the fixed default `Script error` when the key is absent;
and on every single-wrapper input the synthesized text carries an
`AIS.Error.show('<title>', e);` call built from that title. -/
theorem claim7_error_title :
    (∀ pre name post q, (q = '\'' ∨ q = '"') →
      countOcc SCRIPTNAME_KEY pre = 0 →
      (∀ c ∈ name, c ≠ q ∧ c ≠ '\n') →
      extract_cfg_script_name
        (pre ++ (SCRIPTNAME_KEY ++ ':' :: ' ' :: q :: (name ++ q :: post))) =
        name ++ " error".toList) ∧
    (∀ u, countOcc SCRIPTNAME_KEY u = 0 →
      extract_cfg_script_name u = "Script error".toList) ∧
    (∀ t s e body, findIIFEs t = [(s, e, body)] →
      1 ≤ countOcc ("AIS.Error.show('".toList ++
          (extract_cfg_script_name (t.take s ++ t.drop e) ++ "', e);".toList))
        (remove_wrapper_and_build_execute t).1) := by
  refine ⟨fun pre name post q hqq hz hn =>
    extract_cfg_template pre name post q hqq hz hn,
    fun u hz => extract_cfg_default hz, ?_⟩
  intro t s e body hf
  rw [remove_wrapper_single_fst hf]
  exact countOcc_pos_append_right (countOcc_pos_cons _
    (countOcc_show_build _ _ _ _)) _

/-- C7 (witness): the corrected theorem applied to a concrete canonical
field, a key-free text, and a concrete single-wrapper input. -/
theorem claim7_error_title_witness :
    extract_cfg_script_name
      ("var CFG = \x7b ".toList ++ (SCRIPTNAME_KEY ++ ':' :: ' ' :: '\'' ::
        ("Foo".toList ++ '\'' :: " \x7d;".toList))) = "Foo error".toList ∧
    extract_cfg_script_name ("var x = 1;".toList) = "Script error".toList ∧
    1 ≤ countOcc ("AIS.Error.show('".toList ++
        (extract_cfg_script_name
          (("(function()\x7bmain();\x7d)();".toList).take 0 ++
            ("(function()\x7bmain();\x7d)();".toList).drop 24) ++ "', e);".toList))
      (remove_wrapper_and_build_execute ("(function()\x7bmain();\x7d)();".toList)).1 :=
  ⟨claim7_error_title.1 ("var CFG = \x7b ".toList) ("Foo".toList)
      (" \x7d;".toList) '\'' (Or.inl rfl) (by decide) (by decide),
   claim7_error_title.2.1 ("var x = 1;".toList) (by decide),
   claim7_error_title.2.2 ("(function()\x7bmain();\x7d)();".toList) 0 24
     ("main();".toList) (by decide)⟩

/-- C1 (code bug): the per-file pipeline is not idempotent.  For the input
`var x = 1;` the first run inserts the canonical header; the second run
strips the loader, re-finds the pragma and preference lines, and re-inserts
the canonical trio with an extra blank line after the preference statement,
so it changes the text again and reports `changed = true`, contradicting
the specified idempotence. -/
theorem claim1_not_idempotent :
    (process_jsx_file (process_jsx_file ("var x = 1;".toList)).1).2 = true ∧
    (process_jsx_file (process_jsx_file ("var x = 1;".toList)).1).1 ≠
      (process_jsx_file ("var x = 1;".toList)).1 :=
  ⟨by decide, by decide⟩

/-- C3 (counterexample): the claim as stated is false.  For the input
consisting of a single pragma line with no preference statement, the
normalized output contains the target-pragma line twice, not exactly
once. -/
theorem claim3_cx :
    countOcc PRAGMA (ensure_target_and_loader PRAGMA) = 2 ∧
    pragmaLineCount (ensure_target_and_loader PRAGMA) = 2 :=
  ⟨by decide, by decide⟩

/-- C3 (amended): for every input text with no loader occurrence, exactly
one target-pragma line, exactly one preference-statement line, and the
pragma occurring before the preference statement, header normalization
replaces the span from the pragma to the preference statement with the
canonical trio, and the output contains exactly one target-pragma line,
exactly one loader snippet, and exactly one preference statement, in that
fixed order (pragma, then loader, then preference, inside the canonical
trio), with no loader snippet anywhere else. -/
theorem claim3_header_invariant {t : Text} {a b e : Nat}
    (hz : countOcc LOADER t = 0)
    (hp : findPragmaLine t = some a)
    (hq : findPrefLine t = some (b, e))
    (h1 : countOcc PRAGMA t = 1)
    (h1q : countOcc PREF_KEY t = 1)
    (hab : a < b) :
    ensure_target_and_loader t = t.take a ++ CANON_HDR ++ t.drop e ∧
    countOcc PRAGMA (ensure_target_and_loader t) = 1 ∧
    countOcc LOADER (ensure_target_and_loader t) = 1 ∧
    countOcc PREF_KEY (ensure_target_and_loader t) = 1 ∧
    pragmaLineCount (ensure_target_and_loader t) = 1 ∧
    prefLineCount (ensure_target_and_loader t) = 1 := by
  have hO := ensure_replace_eq hz hp hq
  have hpA : pragmaAt t a = true := List.find?_some hp
  have hparts := pragmaAt_parts hpA
  have haocc : PRAGMA.isPrefixOf (t.drop a) = true := hparts.2
  have halt : a < t.length := occ_lt_length (by decide) haocc
  have hqA : prefAt t b = some e := findPrefLine_some_elim hq
  have hqocc : PREF_KEY.isPrefixOf (t.drop b) = true := prefAt_occ (by rw [hqA]; rfl)
  have hbe : b + PREF_KEY.length ≤ e := prefAt_ge hqA
  have hklen : PREF_KEY.length = 62 := by decide
  have hbound := boundaryAt_elim hparts.1
  have hA : t.take a = [] ∨ (t.take a).getLast? = some '\n' := by
    by_cases ha0 : a = 0
    · left
      rw [ha0]
      rfl
    · right
      rcases hbound with h0 | hnl
      · exact absurd h0 ha0
      · rw [take_getLast? (by omega) halt.le]
        exact hnl
  have hTlast : CANON_HDR.getLast? = some '\n' := by decide
  have hsplit : ∀ n : Text, (∀ c ∈ n, c ≠ '\n') →
      countOcc n (ensure_target_and_loader t) =
        countOcc n (t.take a) + countOcc n CANON_HDR + countOcc n (t.drop e) := by
    intro n hnl
    rw [hO, List.append_assoc, countOcc_append_nlLeft hnl hA,
      countOcc_append_nlLeft hnl (Or.inr hTlast)]
    omega
  have hPRA : countOcc PRAGMA (t.take a) = 0 :=
    countOcc_take_eq_zero (by decide) h1 haocc le_rfl
  have hPRB : countOcc PRAGMA (t.drop e) = 0 :=
    countOcc_drop_eq_zero (by decide) h1 haocc (by omega)
  have hPKA : countOcc PREF_KEY (t.take a) = 0 :=
    countOcc_take_eq_zero (by decide) h1q hqocc (by omega)
  have hPKB : countOcc PREF_KEY (t.drop e) = 0 :=
    countOcc_drop_eq_zero (by decide) h1q hqocc (by omega)
  have hLA : countOcc LOADER (t.take a) = 0 := by
    have := countOcc_le_of_isPrefix (n := LOADER) (List.take_prefix a t)
    omega
  have hLB : countOcc LOADER (t.drop e) = 0 := by
    have h2 := countOcc_le_append_right LOADER (t.take e) (t.drop e)
    rw [List.take_append_drop] at h2
    omega
  have c1 : countOcc PRAGMA (ensure_target_and_loader t) = 1 := by
    rw [hsplit PRAGMA (by decide)]
    have : countOcc PRAGMA CANON_HDR = 1 := by decide
    omega
  have c2 : countOcc LOADER (ensure_target_and_loader t) = 1 := by
    rw [hsplit LOADER (by decide)]
    have : countOcc LOADER CANON_HDR = 1 := by decide
    omega
  have c3 : countOcc PREF_KEY (ensure_target_and_loader t) = 1 := by
    rw [hsplit PREF_KEY (by decide)]
    have : countOcc PREF_KEY CANON_HDR = 1 := by decide
    omega
  refine ⟨hO, c1, c2, c3, ?_, ?_⟩
  · -- exactly one pragma line
    have hub : pragmaLineCount (ensure_target_and_loader t) ≤ 1 := by
      have := pragmaLineCount_le (ensure_target_and_loader t)
      omega
    have hEq : ensure_target_and_loader t =
        t.take a ++ (PRAGMA ++ '\n' ::
          (LOADER ++ '\n' :: (PREF_CANON ++ '\n' :: t.drop e))) := by
      rw [hO]
      simp [CANON_HDR, List.cons_append, List.append_assoc]
    have hm : pragmaAt (ensure_target_and_loader t) (t.take a).length = true := by
      rw [hEq]
      exact pragmaAt_exact _ hA
    have hlb : 1 ≤ pragmaLineCount (ensure_target_and_loader t) := by
      unfold pragmaLineCount
      refine one_le_countP_range ?_ hm
      rw [hO]
      simp only [List.length_append]
      omega
    omega
  · -- exactly one preference line
    have hub : prefLineCount (ensure_target_and_loader t) ≤ 1 := by
      have := prefLineCount_le (ensure_target_and_loader t)
      omega
    have hEq2 : ensure_target_and_loader t =
        (t.take a ++ (PRAGMA ++ '\n' :: (LOADER ++ ['\n']))) ++
          (PREF_CANON ++ '\n' :: t.drop e) := by
      rw [hO]
      simp [CANON_HDR, List.cons_append, List.append_assoc]
    have hxlast : (t.take a ++ (PRAGMA ++ '\n' :: (LOADER ++ ['\n']))).getLast? =
        some '\n' := by
      rw [List.getLast?_append]
      rw [(by decide : (PRAGMA ++ '\n' :: (LOADER ++ ['\n'])).getLast? = some '\n')]
      rfl
    have hm : (prefAt (ensure_target_and_loader t)
        (t.take a ++ (PRAGMA ++ '\n' :: (LOADER ++ ['\n']))).length).isSome = true := by
      rw [hEq2]
      exact prefAt_exact _ (Or.inr hxlast)
    have hlb : 1 ≤ prefLineCount (ensure_target_and_loader t) := by
      unfold prefLineCount
      refine one_le_countP_range ?_ hm
      rw [hEq2]
      simp only [List.length_append]
      omega
    omega

/-- C3 (witness): the amended theorem applied to the concrete input
consisting of a pragma line directly followed by the preference line. -/
theorem claim3_header_invariant_witness :
    countOcc LOADER (PRAGMA ++ '\n' :: PREF_CANON) = 0 ∧
    findPragmaLine (PRAGMA ++ '\n' :: PREF_CANON) = some 0 ∧
    findPrefLine (PRAGMA ++ '\n' :: PREF_CANON) = some (22, 92) ∧
    countOcc PRAGMA (PRAGMA ++ '\n' :: PREF_CANON) = 1 ∧
    countOcc PREF_KEY (PRAGMA ++ '\n' :: PREF_CANON) = 1 ∧
    ensure_target_and_loader (PRAGMA ++ '\n' :: PREF_CANON) = CANON_HDR ∧
    pragmaLineCount (ensure_target_and_loader (PRAGMA ++ '\n' :: PREF_CANON)) = 1 := by
  refine ⟨by decide, by decide, by decide, by decide, by decide, ?_, ?_⟩
  · have h := (claim3_header_invariant (t := PRAGMA ++ '\n' :: PREF_CANON)
      (a := 0) (b := 22) (e := 92) (by decide) (by decide) (by decide) (by decide)
      (by decide) (by decide)).1
    rw [h]
    decide
  · exact (claim3_header_invariant (t := PRAGMA ++ '\n' :: PREF_CANON)
      (a := 0) (b := 22) (e := 92) (by decide) (by decide) (by decide) (by decide)
      (by decide) (by decide)).2.2.2.2.1

/-- C4 (counterexample): the claim as stated is false.  The input
`'x' :: LOADER ++ '\n' :: PRAGMA` contains a target-pragma line and no
preference-statement line, yet the canonicalizer's output contains the
target-pragma line only once, not twice: stripping the loader occurrence
glues the pragma to the preceding `x`, so the original pragma line is
destroyed before the canonical block is inserted. -/
theorem claim4_cx :
    pragmaLineCount ('x' :: (LOADER ++ '\n' :: PRAGMA)) = 1 ∧
    findPrefLine ('x' :: (LOADER ++ '\n' :: PRAGMA)) = none ∧
    pragmaLineCount (ensure_target_and_loader ('x' :: (LOADER ++ '\n' :: PRAGMA))) = 1 := by
  refine ⟨by decide, by decide, by decide⟩

/-- C4 (amended): for every input text that contains exactly one
target-pragma line, no occurrence of the loader snippet, no
preference-statement line, and no leading doc-comment, header normalization
still inserts the full canonical block (including a fresh pragma line), so
the output contains the target-pragma line exactly twice. -/
theorem claim4_duplicate_pragma {t : Text} {a : Nat}
    (hz : countOcc LOADER t = 0)
    (hp : findPragmaLine t = some a)
    (h1 : countOcc PRAGMA t = 1)
    (hnp : findPrefLine t = none)
    (hh : matchHeader t = none) :
    ensure_target_and_loader t = insertBlockFull ++ t ∧
    countOcc PRAGMA (ensure_target_and_loader t) = 2 ∧
    pragmaLineCount (ensure_target_and_loader t) = 2 := by
  have hO := ensure_insert_eq hz hnp hh
  have hO2 : ensure_target_and_loader t = insertBlockFull ++ t := by
    rw [hO]
    simp [insertBlockFull, joinNL, List.cons_append, List.append_assoc]
  have hpA : pragmaAt t a = true := List.find?_some hp
  have haocc : PRAGMA.isPrefixOf (t.drop a) = true := pragmaAt_occ hpA
  have halt : a < t.length := occ_lt_length (by decide) haocc
  have hnl : ∀ c ∈ PRAGMA, c ≠ '\n' := by decide
  have hBlast : insertBlockFull.getLast? = some '\n' := by decide
  have hcount : countOcc PRAGMA (ensure_target_and_loader t) = 2 := by
    rw [hO2, countOcc_append_nlLeft hnl (Or.inr hBlast)]
    have hcB : countOcc PRAGMA insertBlockFull = 1 := by decide
    omega
  refine ⟨hO2, hcount, ?_⟩
  have hub : pragmaLineCount (ensure_target_and_loader t) ≤ 2 := by
    have := pragmaLineCount_le (ensure_target_and_loader t)
    omega
  have hBne : insertBlockFull ≠ [] := by decide
  have hlen2 : 2 ≤ insertBlockFull.length := by decide
  have hm1 : pragmaAt (ensure_target_and_loader t) 1 = true := by
    rw [hO2]
    have hEq : insertBlockFull ++ t =
        ['\n'] ++ (PRAGMA ++ '\n' :: ((LOADER ++ '\n' :: PREF_CANON ++ ['\n']) ++ t)) := by
      simp [insertBlockFull, joinNL, List.cons_append, List.append_assoc]
    rw [hEq]
    exact pragmaAt_exact _ (Or.inr rfl)
  have hm2 : pragmaAt (ensure_target_and_loader t) (insertBlockFull.length + a) = true := by
    rw [hO2, pragmaAt_shift hBne hBlast]
    exact hpA
  have hlb : 2 ≤ pragmaLineCount (ensure_target_and_loader t) := by
    unfold pragmaLineCount
    refine two_le_countP_range ?_ ?_ ?_ hm1 hm2
    · omega
    · rw [hO2, List.length_append]
      omega
    · rw [hO2, List.length_append]
      omega
  omega

/-- C4 (witness): the amended theorem applied to the concrete input
`//@target illustrator\nvar q;`. -/
theorem claim4_duplicate_pragma_witness :
    countOcc LOADER ("//@target illustrator\nvar q;".toList) = 0 ∧
    findPragmaLine ("//@target illustrator\nvar q;".toList) = some 0 ∧
    countOcc PRAGMA ("//@target illustrator\nvar q;".toList) = 1 ∧
    findPrefLine ("//@target illustrator\nvar q;".toList) = none ∧
    matchHeader ("//@target illustrator\nvar q;".toList) = none ∧
    pragmaLineCount
      (ensure_target_and_loader ("//@target illustrator\nvar q;".toList)) = 2 :=
  ⟨by decide, by decide, by decide, by decide, by decide,
    (claim4_duplicate_pragma (a := 0) (by decide) (by decide) (by decide) (by decide)
      (by decide)).2.2⟩

end NJX

namespace DRV

/-- C2 (counterexample): the claim as stated is false.  With two matching
files of which the first is unreadable, the driver raises instead of
isolating the failure: the walk returns an error (so no summary is
reported) and only one file is visited although a second matching file
remains unprocessed. -/
theorem claim2_cx :
    mainWalk [none, some ("var x = 1;".toList)] 0 0 = .error () ∧
    visitedCount [none, some ("var x = 1;".toList)] = 1 ∧
    (1 : Nat) < [none, some ("var x = 1;".toList)].length :=
  ⟨rfl, rfl, by decide⟩

/-- C2 (amended): a failure while processing one file aborts the
traversal: if every file before the failing one is readable, the run raises
(no summary is produced) and exactly the files up to and including the
failing one are visited; the files after it are never processed. -/
theorem claim2_failure_aborts (pre post : List (Option NJX.Text))
    (hpre : ∀ f ∈ pre, f.isSome = true) (files count : Nat) :
    mainWalk (pre ++ none :: post) files count = .error () ∧
    visitedCount (pre ++ none :: post) = pre.length + 1 := by
  induction pre generalizing files count with
  | nil => exact ⟨rfl, rfl⟩
  | cons f fs ih =>
    obtain ⟨c, rfl⟩ := Option.isSome_iff_exists.mp (hpre f (List.mem_cons_self f fs))
    have ih' := ih (fun g hg => hpre g (List.mem_cons_of_mem _ hg))
    refine ⟨(ih' _ _).1, ?_⟩
    show 1 + visitedCount (fs ++ none :: post) = fs.length + 1 + 1
    rw [(ih' 0 0).2]
    omega

/-- C2 (witness): the amended theorem applied to a concrete run with one
readable file, then an unreadable one, then another readable one. -/
theorem claim2_failure_aborts_witness :
    (∀ f ∈ [some ("a();".toList)], f.isSome = true) ∧
    mainWalk ([some ("a();".toList)] ++ none :: [some ("b();".toList)]) 0 0 =
      .error () ∧
    visitedCount ([some ("a();".toList)] ++ none :: [some ("b();".toList)]) = 2 :=
  ⟨by decide,
   (claim2_failure_aborts [some ("a();".toList)] [some ("b();".toList)]
      (by decide) 0 0).1,
   (claim2_failure_aborts [some ("a();".toList)] [some ("b();".toList)]
      (by decide) 0 0).2⟩

end DRV

namespace GEN

theorem analyzeScripts_length (ex : α → Bool) (simple : α → Bool × String)
    (l : List α) :
    (analyzeScripts ex simple l).1.length + (analyzeScripts ex simple l).2.1.length +
      (analyzeScripts ex simple l).2.2.length = l.length := by
  induction l with
  | nil => rfl
  | cons s rest ih =>
    simp only [analyzeScripts]
    split_ifs <;> simp only [List.length_cons] <;> omega

theorem generateLoop_length (w : α → Option String) (l : List α) :
    (generateLoop w l).1.length + (generateLoop w l).2.length = l.length := by
  induction l with
  | nil => rfl
  | cons s rest ih =>
    simp only [generateLoop]
    cases w s <;> simp only [List.length_cons] <;> omega

/-- C10: the counts written to the machine-readable summary satisfy
`total_scripts = simple_generated + complex_manual + failed + missing`:
every script parsed from the manifest lands in exactly one of the four
outcome buckets. -/
theorem claim10_counts_invariant (scripts : List α) (ex : α → Bool)
    (simple : α → Bool × String) (w : α → Option String) :
    (generate_scripts scripts ex simple w).total_scripts =
      (generate_scripts scripts ex simple w).simple_generated +
        (generate_scripts scripts ex simple w).complex_manual +
        (generate_scripts scripts ex simple w).failed +
        (generate_scripts scripts ex simple w).missing := by
  have h1 := analyzeScripts_length ex simple scripts
  have h2 := generateLoop_length w (analyzeScripts ex simple scripts).1
  simp only [generate_scripts]
  omega

/-- C8 (counterexample): the claim as stated is false.  The content
`{}{}{}{}{}{}` is within the line bound, contains no complex keyword, and
has brace NESTING depth 1 (bounded by any reasonable fixed bound such as
5), yet the generator classifies it as complex ("Too many code blocks"),
because the source bounds the COUNT of opening braces, not the nesting
depth. -/
theorem claim8_cx :
    (is_simple_script ("\x7b\x7d\x7b\x7d\x7b\x7d\x7b\x7d\x7b\x7d\x7b\x7d".toList)).1 = false ∧
    specBraceNesting ("\x7b\x7d\x7b\x7d\x7b\x7d\x7b\x7d\x7b\x7d\x7b\x7d".toList) = 1 ∧
    (codeLines ("\x7b\x7d\x7b\x7d\x7b\x7d\x7b\x7d\x7b\x7d\x7b\x7d".toList)).length ≤ SIMPLE_MAX_LINES ∧
    hasComplexKeyword ("\x7b\x7d\x7b\x7d\x7b\x7d\x7b\x7d\x7b\x7d\x7b\x7d".toList) = none := by
  refine ⟨by decide, by decide, by decide, by decide⟩

/-- C8 (amended): for every readable content, the generator classifies it as
"simple" if and only if its count of non-empty, non-comment lines is at most
30, it contains none of the complex control-flow keyword patterns, and its
count of opening braces is at most 5; otherwise it is classified "complex"
with a reason. -/
theorem claim8_simple_iff (content : NJX.Text) :
    (is_simple_script content).1 = true ↔
      ((codeLines content).length ≤ SIMPLE_MAX_LINES ∧
       hasComplexKeyword content = none ∧
       braceCount content ≤ 5) := by
  simp only [is_simple_script]
  by_cases hl : (codeLines content).length > SIMPLE_MAX_LINES
  · rw [if_pos hl]
    simp only [Bool.false_eq_true, false_iff]
    rintro ⟨hc, -, -⟩
    omega
  · rw [if_neg hl]
    cases hkw : hasComplexKeyword content with
    | some kw =>
      constructor
      · intro h
        exact absurd h (by simp)
      · rintro ⟨-, hnone, -⟩
        simp_all
    | none =>
      by_cases hb : braceCount content > 5
      · rw [if_pos hb]
        constructor
        · intro h
          exact absurd h (by simp)
        · rintro ⟨-, -, hc⟩
          omega
      · rw [if_neg hb]
        constructor
        · intro _
          exact ⟨by omega, by simp [hkw], by omega⟩
        · intro _
          rfl

end GEN
